import Mathlib

/-!
Shallow embedding of the PyKMIP primitive TTLV codec
(src/kmip/core/primitives.py) and proofs about it.

Byte streams are `List Nat` (each entry a byte value < 256); big-endian
throughout, as in the source (`struct` format strings starting with `!`).
Python exceptions are modelled by the `KErr` error type and fallible
operations return `Except KErr`.  Python's `stream.read(n)` returns up to
`n` bytes, modelled by `List.take`/`List.drop`.
-/

namespace PyKMIP

/-- Big-endian value of a list of bits (`int(binary, 2)` on a 0/1 string). -/
def bitsToNat (l : List Bool) : Nat :=
  l.foldl (fun a b => 2 * a + (if b then 1 else 0)) 0

/-- Big-endian value of a list of bytes (`unpack` of concatenated bytes). -/
def bytesToNat (l : List Nat) : Nat :=
  l.foldl (fun a b => 256 * a + b) 0

/-- Fixed-width big-endian byte representation of `n % 256^w`
(the byte list produced by `struct.pack` for an in-range value). -/
def natToBytes : Nat → Nat → List Nat
  | 0, _ => []
  | w + 1, n => natToBytes w (n / 256) ++ [n % 256]

/-- The Python exceptions the codec can raise. -/
inductive KErr where
  /-- `errors.ReadValueError` raised for the named field. -/
  | readValueError (field : String)
  /-- `exceptions.InvalidPrimitiveLength`. -/
  | invalidPrimitiveLength
  /-- a plain Python `ValueError` (enum conversion, range check, boolean domain). -/
  | valueError (msg : String)
  /-- a Python `TypeError`. -/
  | typeError
  /-- `struct.error` from `pack`/`unpack` on bad sizes or out-of-range values. -/
  | structError
  /-- `UnicodeDecodeError` from decoding a non-ASCII byte in isolation. -/
  | unicodeDecodeError
  /-- `IndexError` from subscripting an empty string or bytes object. -/
  | indexError
  /-- `errors.WriteOverflowError`. -/
  | writeOverflowError
  deriving DecidableEq, Repr

/-- Embeds `pack('!i', v)`: 4 signed big-endian bytes; `struct.error` out of range. -/
def packi32 (v : Int) : Except KErr (List Nat) :=
  if v < -(2 ^ 31) ∨ 2 ^ 31 ≤ v then .error .structError
  else .ok (natToBytes 4 (v % (2 ^ 32 : Int)).toNat)

/-- Embeds `pack('!I', v)`: 4 unsigned big-endian bytes; `struct.error` out of range. -/
def packu32 (v : Int) : Except KErr (List Nat) :=
  if v < 0 ∨ 2 ^ 32 ≤ v then .error .structError
  else .ok (natToBytes 4 v.toNat)

/-- Embeds `pack('!q', v)`: 8 signed big-endian bytes; `struct.error` out of range. -/
def packi64 (v : Int) : Except KErr (List Nat) :=
  if v < -(2 ^ 63) ∨ 2 ^ 63 ≤ v then .error .structError
  else .ok (natToBytes 8 (v % (2 ^ 64 : Int)).toNat)

/-- Embeds `unpack('!i', b)`: signed value of 4 big-endian bytes. -/
def unpacki32 (l : List Nat) : Int :=
  if bytesToNat l < 2 ^ 31 then (bytesToNat l : Int)
  else (bytesToNat l : Int) - 2 ^ 32

/-- Embeds `unpack('!q', b)`: signed value of 8 big-endian bytes. -/
def unpacki64 (l : List Nat) : Int :=
  if bytesToNat l < 2 ^ 63 then (bytesToNat l : Int)
  else (bytesToNat l : Int) - 2 ^ 64

/-!
## Header codec (class `Base`)

`self.tag` and `self.type` are members of the `Tags` / `Types` enumerations
from `kmip.core.enums` (not part of the sources at hand); a member is
identified with its numeric value and the enumerations themselves are
represented by membership functions `tagsMem` / `typesMem` passed in as
parameters, so all theorems hold for any choice of those enumerations.
`Tags(n)` / `Types(n)` raise a plain `ValueError` on a non-member.
-/

/-- Embeds `Base.read_tag`: reads 3 bytes; `unpack('!I', b'\x00' + tts)` raises
`struct.error` on a short read; then `Tags(tag)` (ValueError if not a
member), then comparison with the expected tag (`ReadValueError`). -/
def read_tag (tagsMem : Nat → Bool) ( tag : Nat) (s : List Nat) :
    Except KErr (List Nat) :=
  let tts := s.take 3
  if tts.length ≠ 3 then .error .structError
  else
    let t := bytesToNat (0 :: tts)
    if ¬ tagsMem t then .error (.valueError "not a Tags member")
    else if t ≠ tag then .error (.readValueError "tag")
    else .ok (s.drop 3)

/-- Embeds `Base.read_type`: reads 1 byte with an explicit short-read check
(`ReadValueError`), then `Types(typ)` (ValueError if not a member), then
comparison with the expected type (`ReadValueError`). -/
def read_type (typesMem : Nat → Bool) (typ : Nat) (s : List Nat) :
    Except KErr (List Nat) :=
  match s with
  | [] => .error (.readValueError "type")
  | t :: rest =>
    if ¬ typesMem t then .error (.valueError "not a Types member")
    else if t ≠ typ then .error (.readValueError "type")
    else .ok rest

/-- Embeds `Base.read_length`: reads 4 bytes with an explicit short-read check
(`ReadValueError`), then `unpack('!I', lst)`. -/
def read_length (s : List Nat) : Except KErr (Nat × List Nat) :=
  let lst := s.take 4
  if lst.length ≠ 4 then .error (.readValueError "length")
  else .ok (bytesToNat lst, s.drop 4)

/-- Embeds `Base.read`: tag, then type, then length. -/
def base_read (tagsMem typesMem : Nat → Bool) ( tag typ : Nat) (s : List Nat) :
    Except KErr (Nat × List Nat) :=
  match read_tag tagsMem tag s with
  | .error e => .error e
  | .ok s =>
    match read_type typesMem typ s with
    | .error e => .error e
    | .ok s => read_length s

/-- Embeds `Base.write_tag`: `pack('!I', self.tag.value)[1:]`. -/
def write_tag ( tag : Nat) : Except KErr (List Nat) :=
  if 2 ^ 32 ≤ tag then .error .structError
  else .ok ((natToBytes 4 tag).drop 1)

/-- Embeds `Base.write_type`: `pack('!B', self.type.value)` (the `type(self.type)`
guard always passes for an enumeration member). -/
def write_type (typ : Nat) : Except KErr (List Nat) :=
  if 256 ≤ typ then .error .structError
  else .ok [typ]

/-- Embeds `Base.write_length`.  Modelled from the spec: `utils.count_bytes` is not
among the sources; per spec section 4.1 the write fails with
`WriteOverflowError` iff the length exceeds `2^32 - 1`. -/
def write_length (len : Nat) : Except KErr (List Nat) :=
  if 2 ^ 32 ≤ len then .error .writeOverflowError
  else .ok (natToBytes 4 len)

/-- Embeds `Base.write`: tag, then type, then length. -/
def base_write ( tag typ len : Nat) : Except KErr (List Nat) :=
  match write_tag tag with
  | .error e => .error e
  | .ok a =>
    match write_type typ with
    | .error e => .error e
    | .ok b =>
      match write_length len with
      | .error e => .error e
      | .ok c => .ok (a ++ b ++ c)

/-!
## Integer (signed / unsigned 32-bit); Enumeration and Interval reuse it

`Integer.__init__` selects `pack_string` `'!i'` (signed, the default) or
`'!I'` (unsigned, chosen by `Enumeration`); `Interval.__init__` calls
`Integer.__init__(value, tag)` and therefore gets the signed default.
`Integer.validate` does not consult the signedness flag: it checks the
signed 32-bit bounds in both modes.
-/

def Integer.MIN : Int := -2147483648

def Integer.MAX : Int := 2147483647

def Integer.LENGTH : Nat := 4

/-- Embeds `Integer.validate` for an `int` value (the `type` guard passes). -/
def Integer.validate (v : Int) : Except KErr Unit :=
  if Integer.MAX < v then .error (.valueError "integer value greater than accepted max")
  else if v < Integer.MIN then .error (.valueError "integer value less than accepted min")
  else .ok ()

/-- Embeds `Integer.__init__(value, tag, signed)` restricted to an `int` value:
stores the value and the signedness flag, then validates.  The result
records the signedness chosen for `pack_string`. -/
def Integer.init (signed : Bool) (v : Int) : Except KErr (Int × Bool) :=
  match Integer.validate v with
  | .error e => .error e
  | .ok _ => .ok (v, signed)

/-- Embeds `Integer.read_value`: length check (`ReadValueError`, not
`InvalidPrimitiveLength`), 4 value bytes, 4 pad bytes that must unpack
to 0, then `validate`. -/
def Integer.read_value (signed : Bool) (len : Nat) (s : List Nat) :
    Except KErr (Int × List Nat) :=
  if len ≠ Integer.LENGTH then .error (.readValueError "length")
  else
    let vb := s.take 4
    if vb.length ≠ 4 then .error .structError
    else
      let v : Int := if signed then unpacki32 vb else (bytesToNat vb : Int)
      let s1 := s.drop 4
      let pb := s1.take 4
      if pb.length ≠ 4 then .error .structError
      else
        let pad : Int := if signed then unpacki32 pb else (bytesToNat pb : Int)
        if pad ≠ 0 then .error (.readValueError "pad")
        else
          match Integer.validate v with
          | .error e => .error e
          | .ok _ => .ok (v, s1.drop 4)

/-- Embeds `Integer.read`: header then value.  `typ` is the expected type byte
(`Types.INTEGER` for `Integer`, `Types.ENUMERATION` for `Enumeration`,
`Types.INTERVAL` for `Interval`). -/
def Integer.read (tagsMem typesMem : Nat → Bool) ( tag typ : Nat) (signed : Bool)
    (s : List Nat) : Except KErr (Int × List Nat) :=
  match base_read tagsMem typesMem tag typ s with
  | .error e => .error e
  | .ok (len, s) => Integer.read_value signed len s

/-- Embeds `Integer.write_value`: packed value then a packed 0 as padding. -/
def Integer.write_value (signed : Bool) (v : Int) : Except KErr (List Nat) :=
  match (if signed then packi32 v else packu32 v) with
  | .error e => .error e
  | .ok vb =>
    match (if signed then packi32 0 else packu32 0) with
    | .error e => .error e
    | .ok pb => .ok (vb ++ pb)

/-- Embeds `Integer.write`: header (length 4) then value area. -/
def Integer.write (tagv typ : Nat) (signed : Bool) (v : Int) :
    Except KErr (List Nat) :=
  match base_write tagv typ Integer.LENGTH with
  | .error e => .error e
  | .ok h =>
    match Integer.write_value signed v with
    | .error e => .error e
    | .ok body => .ok (h ++ body)

/-!
## LongInteger (and DateTime, its alias with type byte `Types.DATE_TIME`)
-/

def LongInteger.MIN : Int := -9223372036854775808

def LongInteger.MAX : Int := 9223372036854775807

def LongInteger.LENGTH : Nat := 8

/-- Embeds `LongInteger.validate` for an `int` value. -/
def LongInteger.validate (v : Int) : Except KErr Unit :=
  if LongInteger.MAX < v then
    .error (.valueError "long integer value greater than accepted max")
  else if v < LongInteger.MIN then
    .error (.valueError "long integer value less than accepted min")
  else .ok ()

/-- Embeds `LongInteger.__init__` restricted to an `int` value. -/
def LongInteger.init (v : Int) : Except KErr Int :=
  match LongInteger.validate v with
  | .error e => .error e
  | .ok _ => .ok v

/-- Embeds `LongInteger.read_value`: length must be 8 (`InvalidPrimitiveLength`),
then `unpack('!q', ...)` of 8 bytes, then `validate`. -/
def LongInteger.read_value (len : Nat) (s : List Nat) :
    Except KErr (Int × List Nat) :=
  if len ≠ LongInteger.LENGTH then .error .invalidPrimitiveLength
  else
    let vb := s.take 8
    if vb.length ≠ 8 then .error .structError
    else
      match LongInteger.validate (unpacki64 vb) with
      | .error e => .error e
      | .ok _ => .ok (unpacki64 vb, s.drop 8)

/-- Embeds `LongInteger.read`: header then value. -/
def LongInteger.read (tagsMem typesMem : Nat → Bool) ( tag typ : Nat)
    (s : List Nat) : Except KErr (Int × List Nat) :=
  match base_read tagsMem typesMem tag typ s with
  | .error e => .error e
  | .ok (len, s) => LongInteger.read_value len s

/-- Embeds `LongInteger.write`: header (length 8) then `pack('!q', value)`. -/
def LongInteger.write (tagv typ : Nat) (v : Int) : Except KErr (List Nat) :=
  match base_write tagv typ LongInteger.LENGTH with
  | .error e => .error e
  | .ok h =>
    match packi64 v with
    | .error e => .error e
    | .ok body => .ok (h ++ body)

/-!
## Boolean

`Boolean.validate` only checks the value when it is truthy, so falsy
non-boolean values (such as the integer 0) pass validation.  Python values
are modelled by `PyVal` to express this.
-/

/-- A Python value handed to `Boolean.__init__`. -/
inductive PyVal where
  | pyBool (b : Bool)
  | pyInt (n : Int)
  | pyStr (s : String)
  | pyNone
  deriving DecidableEq, Repr

/-- Python truthiness of a `PyVal`. -/
def PyVal.truthy : PyVal → Bool
  | .pyBool b => b
  | .pyInt n => n ≠ 0
  | .pyStr s => s ≠ ""
  | .pyNone => false

/-- Embeds `isinstance(v, bool)`. -/
def PyVal.isBool : PyVal → Bool
  | .pyBool _ => true
  | _ => false

/-- Embeds `Boolean.validate`: `if self.value: if not isinstance(self.value, bool):
raise TypeError`. -/
def Boolean.validate (v : PyVal) : Except KErr Unit :=
  if v.truthy then
    if ¬ v.isBool then .error .typeError else .ok ()
  else .ok ()

/-- Embeds `Boolean.__init__`: store value and length 8, then validate. -/
def Boolean.init (v : PyVal) : Except KErr PyVal :=
  match Boolean.validate v with
  | .error e => .error e
  | .ok _ => .ok v

def Boolean.LENGTH : Nat := 8

/-- Embeds `Boolean.read_value`: `unpack('!Q', istream.read(8))` (a short read is a
`struct.error`, re-raised by the bare `except`), then the domain check. -/
def Boolean.read_value (s : List Nat) : Except KErr (Bool × List Nat) :=
  let vb := s.take 8
  if vb.length ≠ 8 then .error .structError
  else
    if bytesToNat vb = 1 then .ok (true, s.drop 8)
    else if bytesToNat vb = 0 then .ok (false, s.drop 8)
    else .error (.valueError "expected 0 or 1")

/-- Embeds `Boolean.read`: header then value.  The length field from the stream is
stored in `self.length` but never checked; it is returned so that a
re-encode can reproduce it. -/
def Boolean.read (tagsMem typesMem : Nat → Bool) ( tag : Nat) (s : List Nat) :
    Except KErr ((Bool × Nat) × List Nat) :=
  match base_read tagsMem typesMem tag 6 s with
  | .error e => .error e
  | .ok (len, s) =>
    match Boolean.read_value s with
    | .error e => .error e
    | .ok (v, s) => .ok ((v, len), s)

/-- Embeds `Boolean.write`: header (with the stored length) then
`pack('!Q', self.value)` (a `bool` packs as 0 or 1). -/
def Boolean.write ( tag len : Nat) (v : Bool) : Except KErr (List Nat) :=
  match base_write tag 6 len with
  | .error e => .error e
  | .ok h => .ok (h ++ natToBytes 8 (if v then 1 else 0))

/-!
## Enumeration

`Enumeration.__init__` validates that the value is an enum member, then
calls `Integer.__init__(member.value, tag, False)` (unsigned mode) and sets
the type byte to `Types.ENUMERATION` (5).  The per-class `ENUM_TYPE`
enumeration is modelled by a membership function on numeric codes.

Method dispatch matters on this path: `Enumeration.validate` *overrides*
`Integer.validate`, so the `self.validate()` calls inside
`Integer.__init__` and `Integer.read_value` dispatch to the enum-instance
check when `self` is an `Enumeration` — the signed 32-bit range check of
`Integer.validate` never runs here, and member codes up to `2^32 - 1` are
accepted by construction and by decoding.
-/

/-- Embeds `Enumeration.validate` (the private `__validate`): when
`self.enum` is `None` or an enumeration member, the
`isinstance(self.enum, Enum)` check passes.  The model's Enumeration
values are member codes, so this validation always succeeds. -/
def Enumeration.validate : Except KErr Unit := .ok ()

/-- Embeds `Enumeration.__init__` for a member of `ENUM_TYPE` with numeric
code `code`: `self.validate()` (the enum-instance check), then the body of
`Integer.__init__(code, tag, False)`, whose own `self.validate()` call
dynamically dispatches back to `Enumeration.validate` — not to
`Integer.validate` — so no range check runs and every member code is
accepted. -/
def Enumeration.init (code : Int) : Except KErr (Int × Bool) :=
  match Enumeration.validate with
  | .error e => .error e
  | .ok _ =>
    match Enumeration.validate with
    | .error e => .error e
    | .ok _ => .ok (code, false)

/-- Embeds the body of `Integer.read_value` as executed on an `Enumeration`
instance: the unsigned (`'!I'`) value and pad reads of
`Integer.read_value`, except that the trailing `self.validate()`
dynamically dispatches to `Enumeration.validate` (the enum-instance
check), so the decoded code is not range-checked. -/
def Enumeration.read_value (len : Nat) (s : List Nat) :
    Except KErr (Int × List Nat) :=
  if len ≠ Integer.LENGTH then .error (.readValueError "length")
  else
    let vb := s.take 4
    if vb.length ≠ 4 then .error .structError
    else
      let v : Int := (bytesToNat vb : Int)
      let s1 := s.drop 4
      let pb := s1.take 4
      if pb.length ≠ 4 then .error .structError
      else
        let pad : Int := (bytesToNat pb : Int)
        if pad ≠ 0 then .error (.readValueError "pad")
        else
          match Enumeration.validate with
          | .error e => .error e
          | .ok _ => .ok (v, s1.drop 4)

/-- Embeds `Enumeration.read`: `Integer.read` as executed on an
`Enumeration` instance (header with type byte 5, then the
dispatched-validate `read_value`), then `self.enum =
self.ENUM_TYPE(self.value)` (a plain ValueError on a non-member code)
followed by a final passing `self.validate()`. -/
def Enumeration.read (tagsMem typesMem enumMem : Nat → Bool) ( tag : Nat)
    (s : List Nat) : Except KErr (Int × List Nat) :=
  match base_read tagsMem typesMem tag 5 s with
  | .error e => .error e
  | .ok (len, s) =>
    match Enumeration.read_value len s with
    | .error e => .error e
    | .ok (v, s) =>
      if ¬ enumMem v.toNat then .error (.valueError "not an ENUM_TYPE member")
      else .ok (v, s)

/-- Embeds `Enumeration.write`: `Integer.write` in unsigned mode with type
byte 5 (`Integer.write` performs no `validate` call). -/
def Enumeration.write ( tag : Nat) (code : Int) : Except KErr (List Nat) :=
  Integer.write tag 5 false code

/-!
## TextString

Values are Python `str` objects, modelled as lists of Unicode code points.
`self.length = len(self.value)` is the number of code points.  On write each
character is encoded (`char.encode()`, i.e. UTF-8) and passed to
`pack('!c', c)`, which raises `struct.error` unless the encoding is exactly
one byte.  On read each byte is read and decoded in isolation
(`c.decode()`), which raises `UnicodeDecodeError` for a byte >= 0x80.
-/

/-- UTF-8 encoding of one Unicode code point (`char.encode()` in Python 3). -/
def utf8Bytes (c : Nat) : List Nat :=
  if c < 128 then [c]
  else if c < 2048 then [192 + c / 64, 128 + c % 64]
  else if c < 65536 then [224 + c / 4096, 128 + c / 64 % 64, 128 + c % 64]
  else [240 + c / 262144, 128 + c / 4096 % 64, 128 + c / 64 % 64, 128 + c % 64]

/-- In-memory `TextString` state: value (code points), `self.length`,
`self.padding_length`. -/
structure TextStringP where
  value : List Nat
  len : Nat
  padding : Nat
  deriving DecidableEq, Repr

def TextString.PADDING_SIZE : Nat := 8

/-- Embeds `TextString.__init__` for a `str` value (the type guard passes):
`length = len(value)`; `padding_length = 8 - length % 8`, reset to 0 when
it equals 8. -/
def TextString.init (v : List Nat) : TextStringP :=
  let len := v.length
  let pad0 := TextString.PADDING_SIZE - len % TextString.PADDING_SIZE
  ⟨v, len, if pad0 = TextString.PADDING_SIZE then 0 else pad0⟩

/-- The character-reading loop of `TextString.read_value`: each iteration
reads one byte (`struct.error` when the stream is empty) and UTF-8-decodes
it in isolation (`UnicodeDecodeError` for a byte >= 0x80). -/
def TextString.read_chars : Nat → List Nat → Except KErr (List Nat × List Nat)
  | 0, s => .ok ([], s)
  | n + 1, s =>
    match s with
    | [] => .error .structError
    | b :: rest =>
      if 128 ≤ b then .error .unicodeDecodeError
      else
        match TextString.read_chars n rest with
        | .error e => .error e
        | .ok (cs, s) => .ok (b :: cs, s)

/-- The pad-reading loop shared by `TextString.read_value` and
`ByteString.read_value`: each pad byte must unpack to 0. -/
def read_pads : Nat → List Nat → Except KErr (List Nat)
  | 0, s => .ok s
  | _ + 1, [] => .error .structError
  | n + 1, b :: rest =>
    if b ≠ 0 then .error (.readValueError "pad") else read_pads n rest

/-- Embeds `TextString.read_value`: read `length` characters, then recompute
`padding_length = 8 - length % 8` and read that many zero pad bytes only
when it is < 8.  When `length % 8 == 0` the field is left at 8 (unlike
`ByteString.read_value`, which resets it to 0). -/
def TextString.read_value (len : Nat) (s : List Nat) :
    Except KErr (TextStringP × List Nat) :=
  match TextString.read_chars len s with
  | .error e => .error e
  | .ok (cs, s) =>
    let pad := TextString.PADDING_SIZE - len % TextString.PADDING_SIZE
    if pad < TextString.PADDING_SIZE then
      match read_pads pad s with
      | .error e => .error e
      | .ok s => .ok (⟨cs, len, pad⟩, s)
    else .ok (⟨cs, len, pad⟩, s)

/-- Embeds `TextString.read`: header (type byte 7) then value. -/
def TextString.read (tagsMem typesMem : Nat → Bool) ( tag : Nat) (s : List Nat) :
    Except KErr (TextStringP × List Nat) :=
  match base_read tagsMem typesMem tag 7 s with
  | .error e => .error e
  | .ok (len, s) => TextString.read_value len s

/-- The character-writing loop of `TextString.write_value`:
`pack('!c', char.encode())` demands a one-byte encoding. -/
def TextString.write_chars : List Nat → Except KErr (List Nat)
  | [] => .ok []
  | c :: cs =>
    let eb := utf8Bytes c
    if eb.length ≠ 1 then .error .structError
    else
      match TextString.write_chars cs with
      | .error e => .error e
      | .ok rest => .ok (eb ++ rest)

/-- Embeds `TextString.write_value`: the characters then `padding_length` zero
bytes. -/
def TextString.write_value (p : TextStringP) : Except KErr (List Nat) :=
  match TextString.write_chars p.value with
  | .error e => .error e
  | .ok body => .ok (body ++ List.replicate p.padding 0)

/-- Embeds `TextString.write`: header (type byte 7, stored length) then value. -/
def TextString.write ( tag : Nat) (p : TextStringP) : Except KErr (List Nat) :=
  match base_write tag 7 p.len with
  | .error e => .error e
  | .ok h =>
    match TextString.write_value p with
    | .error e => .error e
    | .ok body => .ok (h ++ body)

/-!
## ByteString
-/

/-- In-memory `ByteString` state. -/
structure ByteStringP where
  value : List Nat
  len : Nat
  padding : Nat
  deriving DecidableEq, Repr

/-- Embeds `ByteString.__init__` for a `bytes` value. -/
def ByteString.init (v : List Nat) : ByteStringP :=
  let len := v.length
  let pad0 := TextString.PADDING_SIZE - len % TextString.PADDING_SIZE
  ⟨v, len, if pad0 = TextString.PADDING_SIZE then 0 else pad0⟩

/-- The byte-reading loop of `ByteString.read_value`:
`istream.read(1)[0]` raises `IndexError` on an empty stream. -/
def ByteString.read_bytes : Nat → List Nat → Except KErr (List Nat × List Nat)
  | 0, s => .ok ([], s)
  | n + 1, s =>
    match s with
    | [] => .error .indexError
    | b :: rest =>
      match ByteString.read_bytes n rest with
      | .error e => .error e
      | .ok (bs, s) => .ok (b :: bs, s)

/-- Embeds `ByteString.read_value`: read `length` raw bytes, recompute
`padding_length` (resetting 8 to 0, unlike `TextString.read_value`), and
read the zero pad bytes. -/
def ByteString.read_value (len : Nat) (s : List Nat) :
    Except KErr (ByteStringP × List Nat) :=
  match ByteString.read_bytes len s with
  | .error e => .error e
  | .ok (bs, s) =>
    let pad0 := TextString.PADDING_SIZE - len % TextString.PADDING_SIZE
    let pad := if pad0 = TextString.PADDING_SIZE then 0 else pad0
    if pad < TextString.PADDING_SIZE then
      match read_pads pad s with
      | .error e => .error e
      | .ok s => .ok (⟨bs, len, pad⟩, s)
    else .ok (⟨bs, len, pad⟩, s)

/-- Embeds `ByteString.read`: header (type byte 8) then value. -/
def ByteString.read (tagsMem typesMem : Nat → Bool) ( tag : Nat) (s : List Nat) :
    Except KErr (ByteStringP × List Nat) :=
  match base_read tagsMem typesMem tag 8 s with
  | .error e => .error e
  | .ok (len, s) => ByteString.read_value len s

/-- The byte-writing loop of `ByteString.write_value`: `pack('!B', byte)`
(bytes from a `bytearray` are always in range). -/
def ByteString.write_bytes : List Nat → Except KErr (List Nat)
  | [] => .ok []
  | b :: bs =>
    if 256 ≤ b then .error .structError
    else
      match ByteString.write_bytes bs with
      | .error e => .error e
      | .ok rest => .ok (b :: rest)

/-- Embeds `ByteString.write`: header (type byte 8, stored length), the raw bytes,
then `padding_length` zero bytes. -/
def ByteString.write ( tag : Nat) (p : ByteStringP) : Except KErr (List Nat) :=
  match base_write tag 8 p.len with
  | .error e => .error e
  | .ok h =>
    match ByteString.write_bytes p.value with
    | .error e => .error e
    | .ok body => .ok (h ++ body ++ List.replicate p.padding 0)

/-!
## DateTime and Interval (aliases)

`DateTime.__init__` is `LongInteger.__init__` followed by
`self.type = Types.DATE_TIME` (9).  `Interval.__init__` calls
`Integer.__init__(value, tag)` — with the *signed* default — followed by
`self.type = Types.INTERVAL` (10).
-/

def DateTime.read (tagsMem typesMem : Nat → Bool) ( tag : Nat) (s : List Nat) :
    Except KErr (Int × List Nat) :=
  LongInteger.read tagsMem typesMem tag 9 s

def DateTime.write ( tag : Nat) (v : Int) : Except KErr (List Nat) :=
  LongInteger.write tag 9 v

/-- Embeds `Interval.__init__`: signed-mode `Integer` construction. -/
def Interval.init (v : Int) : Except KErr (Int × Bool) :=
  Integer.init true v

def Interval.read (tagsMem typesMem : Nat → Bool) ( tag : Nat) (s : List Nat) :
    Except KErr (Int × List Nat) :=
  Integer.read tagsMem typesMem tag 10 true s

def Interval.write ( tag : Nat) (v : Int) : Except KErr (List Nat) :=
  Integer.write tag 10 true v

/-!
## BigInteger

The source works on a Python string of '0'/'1' characters, modelled here as
a `List Bool` (most significant bit first).
-/

/-- The minimal binary representation produced by `"\x7b0:b\x7d".format(n)`
for `n >= 1` (most significant bit first, no leading zeros), written with a
fuel argument for structural recursion; `n` itself is always enough fuel
because the number of binary digits of `n` is at most `n`. -/
def binFmtAux : Nat → Nat → List Bool
  | 0, _ => []
  | fuel + 1, n =>
    if n = 0 then []
    else binFmtAux fuel (n / 2) ++ [decide (n % 2 = 1)]

/-- Embeds `"\x7b0:b\x7d".format(n)`: `"0"` for zero, minimal binary otherwise. -/
def binFmt (n : Nat) : List Bool :=
  if n = 0 then [false] else binFmtAux n n

/-- The per-byte conversion in `BigInteger.read`: format the byte in binary
and left-pad with zeros to 8 bits when `len(bits) % 8` is non-zero. -/
def byteBits (b : Nat) : List Bool :=
  let bits := binFmt b
  let pad := bits.length % 8
  if pad ≠ 0 then List.replicate (8 - pad) false ++ bits else bits

/-- Embeds `binary.replace` swap of '0' and '1': bitwise complement. -/
def mapNot (l : List Bool) : List Bool := l.map (fun b => !b)

/-- Embeds `binary.rfind('0')`: index of the last `false`, `none` when absent
(Python returns -1). -/
def rfindFalse : List Bool → Option Nat
  | [] => none
  | b :: t =>
    match rfindFalse t with
    | some i => some (i + 1)
    | none => if b then none else some 0

/-- Embeds `binary[0:pivot] + '1' + ('0' * len(binary[pivot+1:]))` with
`pivot = binary.rfind('0')`.  With `pivot = -1` the Python slices give
`binary[0:-1]` and `binary[0:]`, embedded literally (that branch is
unreachable in the codec because the string always contains a '0' there). -/
def pivotInc (l : List Bool) : List Bool :=
  match rfindFalse l with
  | some i => l.take i ++ true :: List.replicate (l.length - (i + 1)) false
  | none => l.dropLast ++ true :: List.replicate l.length false

/-- The value bit string built by `BigInteger.write`: minimal binary of
`abs(value)`, left-padded with `64 - len % 64` zeros (always between 1 and
64 of them), then two's-complemented via complement-and-increment when the
value is negative. -/
def BigInteger.value_bits (v : Int) : List Bool :=
  let binary := binFmt v.natAbs
  let binary := List.replicate (64 - binary.length % 64) false ++ binary
  if v < 0 then pivotInc (mapNot binary) else binary

/-- The byte-packing loop of `BigInteger.write`: successive 8-bit slices of
the bit string, each converted with `int(byte, 2)`. -/
def bitsToBytesN : Nat → List Bool → List Nat
  | 0, _ => []
  | k + 1, l => bitsToNat (l.take 8) :: bitsToBytesN k (l.drop 8)

/-- The value bytes written by `BigInteger.write`
(`range(0, len(binary), 8)` iterates `ceil(len / 8)` times). -/
def BigInteger.value_bytes (v : Int) : List Nat :=
  let bits := BigInteger.value_bits v
  bitsToBytesN ((bits.length + 7) / 8) bits

/-- Embeds `BigInteger.write`: value bytes first (to know the length), then header
with `length = len(hexadecimal)`, then the bytes. -/
def BigInteger.write ( tag : Nat) (v : Int) : Except KErr (List Nat) :=
  match base_write tag 4 (BigInteger.value_bytes v).length with
  | .error e => .error e
  | .ok h => .ok (h ++ BigInteger.value_bytes v)

/-- The byte-reading loop of `BigInteger.read`: each iteration reads one
byte (`unpack('!B', istream.read(1))` raises `struct.error` on an empty
stream) and appends its 8-bit string. -/
def BigInteger.read_bits : Nat → List Nat → Except KErr (List Bool × List Nat)
  | 0, s => .ok ([], s)
  | n + 1, s =>
    match s with
    | [] => .error .structError
    | b :: rest =>
      match BigInteger.read_bits n rest with
      | .error e => .error e
      | .ok (bits, s) => .ok (byteBits b ++ bits, s)

/-- Embeds `BigInteger.read`: header (type byte 4); `InvalidPrimitiveLength` when
`length % 8` is non-zero (a length of 0 passes this check); read the bytes
into a bit string; `binary[0]` raises `IndexError` on the empty string;
negative values go through complement-and-increment; the result is
`int(binary, 2) * sign`. -/
def BigInteger.read (tagsMem typesMem : Nat → Bool) ( tag : Nat) (s : List Nat) :
    Except KErr (Int × List Nat) :=
  match base_read tagsMem typesMem tag 4 s with
  | .error e => .error e
  | .ok (len, s) =>
    if len % 8 ≠ 0 then .error .invalidPrimitiveLength
    else
      match BigInteger.read_bits len s with
      | .error e => .error e
      | .ok (binary, s) =>
        match binary with
        | [] => .error .indexError
        | b :: _ =>
          if b then .ok (-(bitsToNat (pivotInc (mapNot binary)) : Int), s)
          else .ok ((bitsToNat binary : Int), s)

/-- Sample enumeration-membership functions used to instantiate theorems at
concrete inputs: a Tags enumeration containing the codes used in the spec
scenarios, and the Types codes 0x01 through 0x0A from spec section 6. -/
def sampleTags (t : Nat) : Bool :=
  t == 0x420020 || t == 0x42007B || t == 0

/-- The Types discriminant codes of spec section 6 as a membership
function. -/
def sampleTypes (t : Nat) : Bool :=
  decide (1 ≤ t) && decide (t ≤ 10)

/-- Sample `ENUM_TYPE` membership with one code in the upper unsigned
range `[2^31, 2^32)` and one small code. -/
def sampleEnum (c : Nat) : Bool :=
  c == 2147483648 || c == 5

/-!
## Arithmetic of the big-endian folds
-/

theorem bitsToNat_from (l : List Bool) (a : Nat) :
    l.foldl (fun x b => 2 * x + (if b then 1 else 0)) a
      = a * 2 ^ l.length + bitsToNat l := by
  induction l generalizing a with
  | nil => simp [bitsToNat]
  | cons b t ih =>
    simp only [List.foldl_cons, List.length_cons, bitsToNat]
    rw [ih, ih]
    ring

theorem bitsToNat_cons (b : Bool) (t : List Bool) :
    bitsToNat (b :: t) = (if b then 1 else 0) * 2 ^ t.length + bitsToNat t := by
  simpa [bitsToNat] using bitsToNat_from t (if b then 1 else 0)

theorem bitsToNat_append (l₁ l₂ : List Bool) :
    bitsToNat (l₁ ++ l₂) = bitsToNat l₁ * 2 ^ l₂.length + bitsToNat l₂ := by
  simpa [bitsToNat, List.foldl_append] using bitsToNat_from l₂ (bitsToNat l₁)

theorem bitsToNat_lt (l : List Bool) : bitsToNat l < 2 ^ l.length := by
  induction l with
  | nil => simp [bitsToNat]
  | cons b t ih =>
    rw [bitsToNat_cons]
    have : (if b then 1 else 0) ≤ 1 := by cases b <;> simp
    calc (if b then 1 else 0) * 2 ^ t.length + bitsToNat t
        ≤ 1 * 2 ^ t.length + bitsToNat t := by
          exact Nat.add_le_add_right (Nat.mul_le_mul_right _ this) _
      _ < 2 ^ (t.length + 1) := by rw [Nat.pow_succ]; omega

theorem bitsToNat_replicate_false (k : Nat) :
    bitsToNat (List.replicate k false) = 0 := by
  induction k with
  | zero => rfl
  | succ k ih => rw [List.replicate_succ, bitsToNat_cons]; simpa using ih

theorem bitsToNat_replicate_true (k : Nat) :
    bitsToNat (List.replicate k true) = 2 ^ k - 1 := by
  induction k with
  | zero => rfl
  | succ k ih =>
    rw [List.replicate_succ, bitsToNat_cons, List.length_replicate, ih]
    have : 1 ≤ 2 ^ k := Nat.one_le_two_pow
    rw [Nat.pow_succ]
    simp only [if_true]
    omega

theorem bitsToNat_zero_of_false (l : List Bool) (h : ∀ b ∈ l, b = false) :
    bitsToNat l = 0 := by
  have := List.eq_replicate_of_mem h
  rw [this, bitsToNat_replicate_false]

theorem bitsToNat_inj (l₁ l₂ : List Bool) (hlen : l₁.length = l₂.length)
    (hval : bitsToNat l₁ = bitsToNat l₂) : l₁ = l₂ := by
  induction l₁ generalizing l₂ with
  | nil => cases l₂ with
    | nil => rfl
    | cons b t => simp at hlen
  | cons a t₁ ih =>
    cases l₂ with
    | nil => simp at hlen
    | cons b t₂ =>
      simp only [List.length_cons, Nat.succ.injEq] at hlen
      rw [bitsToNat_cons, bitsToNat_cons, hlen] at hval
      have h₁ := bitsToNat_lt t₁
      have h₂ := bitsToNat_lt t₂
      rw [hlen] at h₁
      have hab : a = b := by
        cases a <;> cases b
        · rfl
        · exfalso; norm_num at hval; omega
        · exfalso; norm_num at hval; omega
        · rfl
      subst hab
      have : bitsToNat t₁ = bitsToNat t₂ := by omega
      rw [ih t₂ hlen this]

theorem bitsToNat_mapNot (l : List Bool) :
    bitsToNat (mapNot l) = 2 ^ l.length - 1 - bitsToNat l := by
  induction l with
  | nil => rfl
  | cons b t ih =>
    have hlt := bitsToNat_lt t
    simp only [mapNot, List.map_cons] at *
    rw [bitsToNat_cons, bitsToNat_cons, List.length_map, ih, List.length_cons,
      Nat.pow_succ]
    have h1 : 1 ≤ 2 ^ t.length := Nat.one_le_two_pow
    cases b <;> simp <;> omega

theorem bytesToNat_from (l : List Nat) (a : Nat) :
    l.foldl (fun x b => 256 * x + b) a = a * 256 ^ l.length + bytesToNat l := by
  induction l generalizing a with
  | nil => simp [bytesToNat]
  | cons b t ih =>
    simp only [List.foldl_cons, List.length_cons, bytesToNat]
    rw [ih, ih]
    ring

theorem bytesToNat_cons (b : Nat) (t : List Nat) :
    bytesToNat (b :: t) = b * 256 ^ t.length + bytesToNat t := by
  simpa [bytesToNat] using bytesToNat_from t b

theorem bytesToNat_append (l₁ l₂ : List Nat) :
    bytesToNat (l₁ ++ l₂) = bytesToNat l₁ * 256 ^ l₂.length + bytesToNat l₂ := by
  simpa [bytesToNat, List.foldl_append] using bytesToNat_from l₂ (bytesToNat l₁)

theorem bytesToNat_lt (l : List Nat) (h : ∀ b ∈ l, b < 256) :
    bytesToNat l < 256 ^ l.length := by
  induction l with
  | nil => simp [bytesToNat]
  | cons b t ih =>
    rw [bytesToNat_cons]
    have hb : b < 256 := h b (by simp)
    have ht := ih (fun x hx => h x (by simp [hx]))
    have : b * 256 ^ t.length ≤ 255 * 256 ^ t.length :=
      Nat.mul_le_mul_right _ (by omega)
    rw [List.length_cons, Nat.pow_succ]
    omega

theorem natToBytes_length (w n : Nat) : (natToBytes w n).length = w := by
  induction w generalizing n with
  | zero => rfl
  | succ w ih => simp [natToBytes, ih]

theorem natToBytes_mem_lt (w n : Nat) : ∀ b ∈ natToBytes w n, b < 256 := by
  induction w generalizing n with
  | zero => simp [natToBytes]
  | succ w ih =>
    intro b hb
    simp only [natToBytes, List.mem_append, List.mem_singleton] at hb
    rcases hb with hb | hb
    · exact ih _ b hb
    · subst hb; exact Nat.mod_lt _ (by norm_num)

theorem bytesToNat_natToBytes (w n : Nat) :
    bytesToNat (natToBytes w n) = n % 256 ^ w := by
  induction w generalizing n with
  | zero => simp [natToBytes, bytesToNat, Nat.mod_one]
  | succ w ih =>
    simp only [natToBytes]
    rw [bytesToNat_append, ih, bytesToNat_cons]
    simp only [bytesToNat, List.length_nil, List.foldl_nil, Nat.pow_zero,
      List.length_singleton, Nat.pow_one, Nat.mul_one, Nat.add_zero]
    rw [Nat.pow_succ, Nat.mul_comm (256 ^ w) 256, Nat.mod_mul]
    ring

theorem bytesToNat_singleton (a : Nat) : bytesToNat [a] = a := by
  simp [bytesToNat]

theorem natToBytes_bytesToNat (l : List Nat) (h : ∀ b ∈ l, b < 256) :
    natToBytes l.length (bytesToNat l) = l := by
  induction l using List.reverseRecOn with
  | nil => rfl
  | append_singleton t a ih =>
    have ha : a < 256 := h a (by simp)
    have ht : ∀ b ∈ t, b < 256 := fun b hb => h b (by simp [hb])
    rw [List.length_append, List.length_singleton]
    simp only [natToBytes]
    rw [bytesToNat_append, List.length_singleton, bytesToNat_singleton,
      Nat.pow_one]
    have hdiv : (bytesToNat t * 256 + a) / 256 = bytesToNat t := by omega
    have hmod : (bytesToNat t * 256 + a) % 256 = a := by omega
    rw [hdiv, hmod, ih ht]

theorem binFmtAux_sound (fuel : Nat) :
    ∀ n, n ≤ fuel → bitsToNat (binFmtAux fuel n) = n := by
  induction fuel with
  | zero => intro n hn; interval_cases n; rfl
  | succ fuel ih =>
    intro n hn
    by_cases h0 : n = 0
    · subst h0; rfl
    · have h1 : 1 ≤ n := Nat.one_le_iff_ne_zero.mpr h0
      have hstep : binFmtAux (fuel + 1) n
          = binFmtAux fuel (n / 2) ++ [decide (n % 2 = 1)] := by
        simp [binFmtAux, h0]
      rw [hstep, bitsToNat_append, ih (n / 2) (by omega)]
      have hm : n % 2 < 2 := Nat.mod_lt _ (by norm_num)
      by_cases hp : n % 2 = 1 <;> simp [hp, bitsToNat_cons, bitsToNat] <;> omega

theorem binFmt_sound (n : Nat) : bitsToNat (binFmt n) = n := by
  by_cases h0 : n = 0
  · subst h0; rfl
  · rw [binFmt, if_neg h0]; exact binFmtAux_sound n n le_rfl

theorem binFmt_ne_nil (n : Nat) : binFmt n ≠ [] := by
  by_cases h0 : n = 0
  · subst h0; simp [binFmt]
  · rw [binFmt, if_neg h0]
    cases fuel_def : n with
    | zero => omega
    | succ m =>
      simp only [binFmtAux, if_neg h0]
      intro hc
      exact absurd hc (List.append_ne_nil_of_right_ne_nil _ (by simp))

theorem binFmtAux_length_le (fuel : Nat) :
    ∀ n k, n ≤ fuel → n < 2 ^ k → (binFmtAux fuel n).length ≤ k := by
  induction fuel with
  | zero => intro n k hn _; interval_cases n; simp [binFmtAux]
  | succ fuel ih =>
    intro n k hn hk
    by_cases h0 : n = 0
    · subst h0; simp [binFmtAux]
    · have hstep : binFmtAux (fuel + 1) n
          = binFmtAux fuel (n / 2) ++ [decide (n % 2 = 1)] := by
        simp [binFmtAux, h0]
      have hk1 : 1 ≤ k := by
        by_contra hc
        have : k = 0 := by omega
        subst this
        simp at hk
        omega
      have hdiv : n / 2 < 2 ^ (k - 1) := by
        have h2 : 2 ^ k = 2 ^ (k - 1) * 2 := by
          rw [← Nat.pow_succ]
          congr 1
          omega
        rw [Nat.div_lt_iff_lt_mul (by norm_num)]
        omega
      rw [hstep, List.length_append, List.length_singleton]
      have := ih (n / 2) (k - 1) (by omega) hdiv
      omega

theorem binFmt_length_le (n k : Nat) (hk : 1 ≤ k) (h : n < 2 ^ k) :
    (binFmt n).length ≤ k := by
  by_cases h0 : n = 0
  · subst h0; simpa [binFmt] using hk
  · rw [binFmt, if_neg h0]; exact binFmtAux_length_le n n k le_rfl h

theorem byteBits_sound (b : Nat) : bitsToNat (byteBits b) = b := by
  simp only [byteBits]
  by_cases hp : (binFmt b).length % 8 ≠ 0
  · rw [if_pos hp, bitsToNat_append, bitsToNat_replicate_false, binFmt_sound]
    simp
  · rw [if_neg hp]; exact binFmt_sound b

theorem byteBits_length (b : Nat) (hb : b < 256) : (byteBits b).length = 8 := by
  have h1 : (binFmt b).length ≤ 8 := binFmt_length_le b 8 (by norm_num) hb
  have h2 : binFmt b ≠ [] := binFmt_ne_nil b
  have h3 : 1 ≤ (binFmt b).length := by
    cases hl : binFmt b with
    | nil => exact absurd hl h2
    | cons x t => simp
  simp only [byteBits]
  by_cases hp : (binFmt b).length % 8 ≠ 0
  · rw [if_pos hp, List.length_append, List.length_replicate]
    omega
  · rw [if_neg hp]
    omega

theorem byteBits_of_bits (l : List Bool) (h : l.length = 8) :
    byteBits (bitsToNat l) = l := by
  have hlt : bitsToNat l < 256 := by
    have := bitsToNat_lt l
    rw [h] at this
    simpa using this
  refine bitsToNat_inj _ _ ?_ ?_
  · rw [byteBits_length _ hlt, h]
  · rw [byteBits_sound]

theorem natToBytes_drop_one (w n : Nat) :
    (natToBytes (w + 1) n).drop 1 = natToBytes w n := by
  induction w generalizing n with
  | zero => simp [natToBytes]
  | succ w ih =>
    have h2 : natToBytes (w + 1 + 1) n
        = natToBytes (w + 1) (n / 256) ++ [n % 256] := rfl
    rw [h2]
    have hne : natToBytes (w + 1) (n / 256) ≠ [] := by
      intro hc
      have := natToBytes_length (w + 1) (n / 256)
      rw [hc] at this
      simp at this
    rw [List.drop_append_of_le_length (by rw [natToBytes_length]; omega)]
    rw [ih]
    rfl

/-!
## Complement-and-increment (`pivotInc`) and byte chunking
-/

theorem rfindFalse_none_iff (l : List Bool) :
    rfindFalse l = none ↔ ∀ b ∈ l, b = true := by
  induction l with
  | nil => simp [rfindFalse]
  | cons b t ih =>
    simp only [rfindFalse]
    cases hf : rfindFalse t with
    | some i =>
      simp only []
      constructor
      · intro hc; exact absurd hc (by simp)
      · intro hall
        have : ∀ x ∈ t, x = true := fun x hx => hall x (by simp [hx])
        rw [← ih] at this
        rw [hf] at this
        exact absurd this (by simp)
    | none =>
      have hall := ih.mp hf
      cases b with
      | false =>
        simp only [if_neg (by simp : ¬ (false = true))]
        constructor
        · intro hc; exact absurd hc (by simp)
        · intro h
          have := h false (by simp)
          exact absurd this (by simp)
      | true =>
        simp only [if_pos rfl]
        constructor
        · intro _ x hx
          rcases List.mem_cons.mp hx with h | h
          · exact h
          · exact hall x h
        · intro _; rfl

theorem rfindFalse_decomp (l : List Bool) (i : Nat)
    (h : rfindFalse l = some i) :
    ∃ a b, l = a ++ false :: b ∧ a.length = i ∧ ∀ x ∈ b, x = true := by
  induction l generalizing i with
  | nil => simp [rfindFalse] at h
  | cons hd t ih =>
    simp only [rfindFalse] at h
    cases hf : rfindFalse t with
    | some j =>
      rw [hf] at h
      simp only [Option.some.injEq] at h
      obtain ⟨a, b, hab, hlen, hb⟩ := ih j hf
      exact ⟨hd :: a, b, by simp [hab], by simp [hlen, ← h], hb⟩
    | none =>
      rw [hf] at h
      have hall := (rfindFalse_none_iff t).mp hf
      cases hd with
      | true => simp at h
      | false =>
        simp only [if_neg (by simp : ¬ (false = true)), Option.some.injEq] at h
        exact ⟨[], t, rfl, by simp [← h], hall⟩

theorem pivotInc_spec (l : List Bool) (h : false ∈ l) :
    (pivotInc l).length = l.length ∧ bitsToNat (pivotInc l) = bitsToNat l + 1 := by
  have hne : rfindFalse l ≠ none := by
    intro hc
    have := (rfindFalse_none_iff l).mp hc false h
    simp at this
  cases hf : rfindFalse l with
  | none => exact absurd hf hne
  | some i =>
    obtain ⟨a, b, hab, hlen, hb⟩ := rfindFalse_decomp l i hf
    have hbrep : b = List.replicate b.length true := List.eq_replicate_of_mem hb
    have htake : l.take i = a := by
      rw [hab, ← hlen, List.take_left]
    have hlength : l.length = a.length + b.length + 1 := by
      rw [hab]; simp; omega
    simp only [pivotInc, hf, htake]
    constructor
    · simp only [List.length_append, List.length_cons, List.length_replicate]
      omega
    · have hdrop : l.length - (i + 1) = b.length := by omega
      have hbv : bitsToNat b = 2 ^ b.length - 1 := by
        conv_lhs => rw [hbrep]
        rw [bitsToNat_replicate_true]
      rw [hdrop, hab]
      rw [bitsToNat_append, bitsToNat_append, bitsToNat_cons, bitsToNat_cons,
        hbv]
      have h1 : 1 ≤ 2 ^ b.length := Nat.one_le_two_pow
      simp only [List.length_cons, List.length_replicate,
        bitsToNat_replicate_false]
      norm_num
      omega

/-- Reading back the bytes of a bit string whose length is a multiple of 8
reconstructs the bit string. -/
theorem byteBits_flatten_bitsToBytesN (k : Nat) :
    ∀ l : List Bool, l.length = 8 * k →
      ((bitsToBytesN k l).map byteBits).flatten = l := by
  induction k with
  | zero =>
    intro l hl
    have : l = [] := List.eq_nil_of_length_eq_zero (by omega)
    simp [this, bitsToBytesN]
  | succ k ih =>
    intro l hl
    have hlen8 : (l.take 8).length = 8 := by
      rw [List.length_take]
      omega
    have hdrop : (l.drop 8).length = 8 * k := by
      rw [List.length_drop]
      omega
    simp only [bitsToBytesN, List.map_cons, List.flatten_cons]
    rw [byteBits_of_bits _ hlen8, ih _ hdrop, List.take_append_drop]

theorem bitsToBytesN_length (k : Nat) (l : List Bool) :
    (bitsToBytesN k l).length = k := by
  induction k generalizing l with
  | zero => rfl
  | succ k ih => simp [bitsToBytesN, ih]

theorem bitsToBytesN_mem_lt (k : Nat) :
    ∀ l : List Bool, ∀ x ∈ bitsToBytesN k l, x < 256 := by
  induction k with
  | zero => intro l x hx; simp [bitsToBytesN] at hx
  | succ k ih =>
    intro l x hx
    simp only [bitsToBytesN, List.mem_cons] at hx
    rcases hx with hx | hx
    · subst hx
      have h1 := bitsToNat_lt (l.take 8)
      have h2 : (l.take 8).length ≤ 8 := by
        rw [List.length_take]; omega
      have h3 : (2 : Nat) ^ (l.take 8).length ≤ 2 ^ 8 :=
        Nat.pow_le_pow_right (by norm_num) h2
      omega
    · exact ih _ x hx

/-- Embeds `BigInteger.read_bits` consumes exactly its byte count and produces the
concatenation of the per-byte bit strings. -/
theorem read_bits_spec (bs : List Nat) (rest : List Nat) :
    BigInteger.read_bits bs.length (bs ++ rest)
      = .ok ((bs.map byteBits).flatten, rest) := by
  induction bs with
  | nil => simp [BigInteger.read_bits]
  | cons b t ih =>
    simp only [List.length_cons, List.cons_append, BigInteger.read_bits, ih]
    rfl

/-!
## Header round-trip lemmas
-/

theorem take_append_exact {α : Type} (A B : List α) (n : Nat)
    (h : A.length = n) : (A ++ B).take n = A := by
  subst h; exact List.take_left A B

theorem drop_append_exact {α : Type} (A B : List α) (n : Nat)
    (h : A.length = n) : (A ++ B).drop n = B := by
  subst h; exact List.drop_left A B

/-- The 3 tag bytes actually written by `write_tag`. -/
theorem write_tag_ok ( tag : Nat) (h : tag < 2 ^ 32) :
    write_tag tag = .ok (natToBytes 3 tag) := by
  rw [write_tag, if_neg (by omega)]
  rw [natToBytes_drop_one]

theorem base_write_ok ( tag typ len : Nat) (ht : tag < 2 ^ 32) (hy : typ < 256)
    (hl : len < 2 ^ 32) :
    base_write tag typ len
      = .ok (natToBytes 3 tag ++ typ :: natToBytes 4 len) := by
  rw [base_write, write_tag_ok _ ht]
  simp only [write_type, if_neg (by omega : ¬ 256 ≤ typ),
    write_length, if_neg (by omega : ¬ 2 ^ 32 ≤ len)]
  show Except.ok (natToBytes 3 tag ++ [typ] ++ natToBytes 4 len)
      = Except.ok (natToBytes 3 tag ++ typ :: natToBytes 4 len)
  simp

theorem read_tag_ok (tagsMem : Nat → Bool) ( tag : Nat) (rest : List Nat)
    (ht : tag < 2 ^ 24) (hm : tagsMem tag = true) :
    read_tag tagsMem tag (natToBytes 3 tag ++ rest) = .ok rest := by
  have hlen : (natToBytes 3 tag).length = 3 := natToBytes_length 3 tag
  have htake : (natToBytes 3 tag ++ rest).take 3 = natToBytes 3 tag :=
    take_append_exact _ _ _ hlen
  have hdrop : (natToBytes 3 tag ++ rest).drop 3 = rest :=
    drop_append_exact _ _ _ hlen
  have ht' : tag < 16777216 := by
    have h24 : (2 : Nat) ^ 24 = 16777216 := by norm_num
    omega
  have hval : bytesToNat (0 :: natToBytes 3 tag) = tag := by
    have h3 : (256 : Nat) ^ 3 = 16777216 := by norm_num
    have hmod : tag % 256 ^ 3 = tag := Nat.mod_eq_of_lt (by omega)
    rw [bytesToNat_cons, bytesToNat_natToBytes, hmod]
    simp
  simp only [read_tag, htake, hlen, hval, hm, hdrop]
  simp

theorem base_read_ok (tagsMem typesMem : Nat → Bool) ( tag typ len : Nat)
    (rest : List Nat) (ht : tag < 2 ^ 24) (hm : tagsMem tag = true)
    (hy : typesMem typ = true) (hl : len < 2 ^ 32) :
    base_read tagsMem typesMem tag typ
      (natToBytes 3 tag ++ typ :: (natToBytes 4 len ++ rest))
      = .ok (len, rest) := by
  have hlen4 : (natToBytes 4 len).length = 4 := natToBytes_length 4 len
  have htake : (natToBytes 4 len ++ rest).take 4 = natToBytes 4 len :=
    take_append_exact _ _ _ hlen4
  have hdrop : (natToBytes 4 len ++ rest).drop 4 = rest :=
    drop_append_exact _ _ _ hlen4
  have h4 : (256 : Nat) ^ 4 = 4294967296 := by norm_num
  have h32 : (2 : Nat) ^ 32 = 4294967296 := by norm_num
  have hmod : len % 256 ^ 4 = len := Nat.mod_eq_of_lt (by omega)
  simp only [base_read, read_tag_ok tagsMem tag _ ht hm, read_type, hy,
    read_length, htake, hlen4, hdrop, bytesToNat_natToBytes, hmod]
  simp [htake, hdrop, hlen4, bytesToNat_natToBytes, hmod]
  omega

/-!
## BigInteger round-trip
-/

theorem head_true_of_msb (l : List Bool) (hne : l ≠ [])
    (hv : 2 ^ (l.length - 1) ≤ bitsToNat l) : ∃ t, l = true :: t := by
  cases l with
  | nil => exact absurd rfl hne
  | cons b t =>
    cases b with
    | true => exact ⟨t, rfl⟩
    | false =>
      exfalso
      rw [bitsToNat_cons] at hv
      have hlt := bitsToNat_lt t
      simp only [List.length_cons, Nat.add_sub_cancel] at hv
      simp only [if_neg (by simp : ¬ (false = true)), Nat.zero_mul,
        Nat.zero_add] at hv
      omega

/-- The invariants of the bit string built by `BigInteger.write`: its length
is a positive multiple of 64; for non-negative values it starts with a zero
bit and holds the magnitude; for negative values it starts with a one bit
and complement-and-increment recovers the magnitude. -/
theorem value_bits_props (v : Int) :
    ((BigInteger.value_bits v).length % 64 = 0
      ∧ 64 ≤ (BigInteger.value_bits v).length)
    ∧ (0 ≤ v → ∃ t, BigInteger.value_bits v = false :: t
        ∧ bitsToNat (BigInteger.value_bits v) = v.natAbs)
    ∧ (v < 0 → ∃ t, BigInteger.value_bits v = true :: t
        ∧ bitsToNat (pivotInc (mapNot (BigInteger.value_bits v))) = v.natAbs) := by
  have hfb : binFmt v.natAbs ≠ [] := binFmt_ne_nil v.natAbs
  have hL1 : 1 ≤ (binFmt v.natAbs).length := by
    cases hc : binFmt v.natAbs with
    | nil => exact absurd hc hfb
    | cons x t => simp
  have hLmod : (binFmt v.natAbs).length % 64 < 64 := Nat.mod_lt _ (by norm_num)
  have hP1 : 1 ≤ 64 - (binFmt v.natAbs).length % 64 := by omega
  have hpadlen : (List.replicate (64 - (binFmt v.natAbs).length % 64) false
      ++ binFmt v.natAbs).length
      = (64 - (binFmt v.natAbs).length % 64) + (binFmt v.natAbs).length := by
    simp
  have hpadmod : ((64 - (binFmt v.natAbs).length % 64)
      + (binFmt v.natAbs).length) % 64 = 0 := by omega
  have hpadge : 64 ≤ (64 - (binFmt v.natAbs).length % 64)
      + (binFmt v.natAbs).length := by omega
  have hpv : bitsToNat (List.replicate (64 - (binFmt v.natAbs).length % 64)
      false ++ binFmt v.natAbs) = v.natAbs := by
    rw [bitsToNat_append, bitsToNat_replicate_false, binFmt_sound]
    simp
  have hmlt : v.natAbs < 2 ^ (binFmt v.natAbs).length := by
    have := bitsToNat_lt (binFmt v.natAbs)
    rw [binFmt_sound] at this
    exact this
  by_cases hneg : v < 0
  · -- negative branch: complement and increment
    have hm1 : 1 ≤ v.natAbs := by
      rcases Int.natAbs_eq v with h | h <;> omega
    have hbits : BigInteger.value_bits v
        = pivotInc (mapNot (List.replicate
            (64 - (binFmt v.natAbs).length % 64) false ++ binFmt v.natAbs)) := by
      simp only [BigInteger.value_bits, if_pos hneg]
    have hmaplen : (mapNot (List.replicate
        (64 - (binFmt v.natAbs).length % 64) false ++ binFmt v.natAbs)).length
        = (64 - (binFmt v.natAbs).length % 64) + (binFmt v.natAbs).length := by
      simp [mapNot]
    have hmapv : bitsToNat (mapNot (List.replicate
        (64 - (binFmt v.natAbs).length % 64) false ++ binFmt v.natAbs))
        = 2 ^ ((64 - (binFmt v.natAbs).length % 64)
            + (binFmt v.natAbs).length) - 1 - v.natAbs := by
      rw [bitsToNat_mapNot, hpv, hpadlen]
    have htrue : true ∈ (List.replicate
        (64 - (binFmt v.natAbs).length % 64) false ++ binFmt v.natAbs) := by
      by_contra hc
      have hall : ∀ x ∈ (List.replicate
          (64 - (binFmt v.natAbs).length % 64) false ++ binFmt v.natAbs),
          x = false := by
        intro x hx
        cases x
        · rfl
        · exact absurd hx hc
      have := bitsToNat_zero_of_false _ hall
      rw [hpv] at this
      omega
    have hmem : false ∈ mapNot (List.replicate
        (64 - (binFmt v.natAbs).length % 64) false ++ binFmt v.natAbs) := by
      simp only [mapNot, List.mem_map]
      exact ⟨true, htrue, rfl⟩
    obtain ⟨hplen, hpval⟩ := pivotInc_spec _ hmem
    have hLle : (binFmt v.natAbs).length
        ≤ (64 - (binFmt v.natAbs).length % 64) + (binFmt v.natAbs).length - 1 := by
      omega
    have hpow_le : 2 ^ (binFmt v.natAbs).length
        ≤ 2 ^ ((64 - (binFmt v.natAbs).length % 64)
            + (binFmt v.natAbs).length - 1) :=
      Nat.pow_le_pow_right (by norm_num) hLle
    have hpow_lt : 2 ^ ((64 - (binFmt v.natAbs).length % 64)
        + (binFmt v.natAbs).length - 1) * 2
        = 2 ^ ((64 - (binFmt v.natAbs).length % 64)
            + (binFmt v.natAbs).length) := by
      rw [← Nat.pow_succ]
      congr 1
      omega
    have hval2 : bitsToNat (BigInteger.value_bits v)
        = 2 ^ ((64 - (binFmt v.natAbs).length % 64)
            + (binFmt v.natAbs).length) - v.natAbs := by
      rw [hbits, hpval, hmapv]
      omega
    have hlen2 : (BigInteger.value_bits v).length
        = (64 - (binFmt v.natAbs).length % 64) + (binFmt v.natAbs).length := by
      rw [hbits, hplen, hmaplen]
    refine ⟨⟨by rw [hlen2]; exact hpadmod, by rw [hlen2]; exact hpadge⟩,
      fun hge => absurd hge (by omega), fun _ => ?_⟩
    have hne2 : BigInteger.value_bits v ≠ [] := by
      intro hc
      have := hlen2
      rw [hc] at this
      simp at this
      omega
    have hhead : ∃ t, BigInteger.value_bits v = true :: t := by
      apply head_true_of_msb _ hne2
      rw [hval2, hlen2]
      omega
    obtain ⟨t, hht⟩ := hhead
    refine ⟨t, hht, ?_⟩
    have hmapv2 : bitsToNat (mapNot (BigInteger.value_bits v))
        = v.natAbs - 1 := by
      rw [bitsToNat_mapNot, hval2, hlen2]
      have h1 : 1 ≤ 2 ^ ((64 - (binFmt v.natAbs).length % 64)
          + (binFmt v.natAbs).length) := Nat.one_le_two_pow
      omega
    have hmem2 : false ∈ mapNot (BigInteger.value_bits v) := by
      rw [hht]
      simp [mapNot]
    obtain ⟨_, hpval2⟩ := pivotInc_spec _ hmem2
    rw [hpval2, hmapv2]
    omega
  · -- non-negative branch: the padded magnitude itself
    have hbits : BigInteger.value_bits v
        = List.replicate (64 - (binFmt v.natAbs).length % 64) false
            ++ binFmt v.natAbs := by
      simp only [BigInteger.value_bits, if_neg hneg]
    refine ⟨⟨by rw [hbits, hpadlen]; exact hpadmod,
        by rw [hbits, hpadlen]; exact hpadge⟩,
      fun _ => ?_, fun hlt => absurd hlt hneg⟩
    obtain ⟨P', hP'⟩ : ∃ P', 64 - (binFmt v.natAbs).length % 64 = P' + 1 :=
      ⟨64 - (binFmt v.natAbs).length % 64 - 1, by omega⟩
    refine ⟨List.replicate P' false ++ binFmt v.natAbs, ?_, ?_⟩
    · rw [hbits, hP', List.replicate_succ]
      rfl
    · rw [hbits, hpv]

/-- Writing a BigInteger and reading it back over the same tag yields the
original value and drains the stream. -/
theorem bigInteger_roundtrip (tagsMem typesMem : Nat → Bool) ( tag : Nat)
    (v : Int) (ht : tag < 2 ^ 24) (hm : tagsMem tag = true)
    (hy : typesMem 4 = true) (hl : (BigInteger.value_bytes v).length < 2 ^ 32) :
    (BigInteger.write tag v).bind (BigInteger.read tagsMem typesMem tag)
      = .ok (v, ([] : List Nat)) := by
  obtain ⟨⟨hW64, hWge⟩, hpos, hneg⟩ := value_bits_props v
  have hceil : ((BigInteger.value_bits v).length + 7) / 8
      = (BigInteger.value_bits v).length / 8 := by omega
  have hbyteslen : (BigInteger.value_bytes v).length
      = (BigInteger.value_bits v).length / 8 := by
    rw [BigInteger.value_bytes, hceil, bitsToBytesN_length]
  have hbits8 : (BigInteger.value_bits v).length
      = 8 * ((BigInteger.value_bits v).length / 8) := by omega
  have hlenmod : (BigInteger.value_bytes v).length % 8 = 0 := by
    rw [hbyteslen]
    omega
  have ht32 : tag < 2 ^ 32 := by
    have h24 : (2 : Nat) ^ 24 = 16777216 := by norm_num
    have h32 : (2 : Nat) ^ 32 = 4294967296 := by norm_num
    omega
  have hwrite : BigInteger.write tag v
      = .ok (natToBytes 3 tag
          ++ 4 :: (natToBytes 4 (BigInteger.value_bytes v).length
            ++ BigInteger.value_bytes v)) := by
    simp only [BigInteger.write,
      base_write_ok tag 4 (BigInteger.value_bytes v).length ht32
        (by norm_num) hl]
    simp
  rw [hwrite]
  show BigInteger.read tagsMem typesMem tag _ = _
  rw [BigInteger.read]
  rw [base_read_ok tagsMem typesMem tag 4 (BigInteger.value_bytes v).length
    (BigInteger.value_bytes v) ht hm hy hl]
  simp only [hlenmod]
  have hreadbits : BigInteger.read_bits (BigInteger.value_bytes v).length
      (BigInteger.value_bytes v)
      = .ok (BigInteger.value_bits v, ([] : List Nat)) := by
    have h1 : BigInteger.value_bytes v
        = bitsToBytesN ((BigInteger.value_bits v).length / 8)
            (BigInteger.value_bits v) := by
      rw [BigInteger.value_bytes, hceil]
    have h2 := read_bits_spec (BigInteger.value_bytes v) []
    rw [List.append_nil] at h2
    rw [h2, h1,
      byteBits_flatten_bitsToBytesN ((BigInteger.value_bits v).length / 8)
        (BigInteger.value_bits v) hbits8]
  rw [hreadbits]
  by_cases hsign : v < 0
  · obtain ⟨t, hht, hval⟩ := hneg hsign
    rw [hht]
    simp only [if_pos rfl]
    rw [← hht, hval]
    have : ((v.natAbs : Int)) = -v := by omega
    rw [this]
    simp
  · obtain ⟨t, hht, hval⟩ := hpos (by omega)
    rw [hht]
    simp only [if_neg (by simp : ¬ (false = true))]
    rw [← hht, hval]
    have : ((v.natAbs : Int)) = v := by omega
    rw [this]
    simp

/-!
## Fixed-width round-trip lemmas
-/

theorem unpacki32_natToBytes (v : Int) (h1 : -(2 ^ 31) ≤ v) (h2 : v < 2 ^ 31) :
    unpacki32 (natToBytes 4 (v % (2 ^ 32 : Int)).toNat) = v := by
  have e31 : (2 : Int) ^ 31 = 2147483648 := by norm_num
  have e32 : (2 : Int) ^ 32 = 4294967296 := by norm_num
  have e31n : (2 : Nat) ^ 31 = 2147483648 := by norm_num
  have e256 : (256 : Nat) ^ 4 = 4294967296 := by norm_num
  have hnn : 0 ≤ v % (2 ^ 32 : Int) := Int.emod_nonneg v (by norm_num)
  have hlt : v % (2 ^ 32 : Int) < 2 ^ 32 := Int.emod_lt_of_pos v (by norm_num)
  have htoNat : ((v % (2 ^ 32 : Int)).toNat : Int) = v % 2 ^ 32 :=
    Int.toNat_of_nonneg hnn
  have hmod32 : v % (2 ^ 32 : Int) = v % 4294967296 := by rw [e32]
  have hmod4 : (v % (2 ^ 32 : Int)).toNat < 256 ^ 4 := by omega
  rw [unpacki32, bytesToNat_natToBytes, Nat.mod_eq_of_lt hmod4]
  by_cases hc : (v % (2 ^ 32 : Int)).toNat < 2 ^ 31
  · rw [if_pos hc]
    omega
  · rw [if_neg hc]
    omega

theorem unpacki64_natToBytes (v : Int) (h1 : -(2 ^ 63) ≤ v) (h2 : v < 2 ^ 63) :
    unpacki64 (natToBytes 8 (v % (2 ^ 64 : Int)).toNat) = v := by
  have e63 : (2 : Int) ^ 63 = 9223372036854775808 := by norm_num
  have e64 : (2 : Int) ^ 64 = 18446744073709551616 := by norm_num
  have e63n : (2 : Nat) ^ 63 = 9223372036854775808 := by norm_num
  have e256 : (256 : Nat) ^ 8 = 18446744073709551616 := by norm_num
  have hnn : 0 ≤ v % (2 ^ 64 : Int) := Int.emod_nonneg v (by norm_num)
  have hlt : v % (2 ^ 64 : Int) < 2 ^ 64 := Int.emod_lt_of_pos v (by norm_num)
  have htoNat : ((v % (2 ^ 64 : Int)).toNat : Int) = v % 2 ^ 64 :=
    Int.toNat_of_nonneg hnn
  have hmod64 : v % (2 ^ 64 : Int) = v % 18446744073709551616 := by rw [e64]
  have hmod8 : (v % (2 ^ 64 : Int)).toNat < 256 ^ 8 := by omega
  rw [unpacki64, bytesToNat_natToBytes, Nat.mod_eq_of_lt hmod8]
  by_cases hc : (v % (2 ^ 64 : Int)).toNat < 2 ^ 63
  · rw [if_pos hc]
    omega
  · rw [if_neg hc]
    omega

theorem integer_validate_ok (v : Int) (h1 : Integer.MIN ≤ v)
    (h2 : v ≤ Integer.MAX) : Integer.validate v = .ok () := by
  rw [Integer.validate, if_neg (by omega), if_neg (by omega)]

theorem longinteger_validate_ok (v : Int) (h1 : LongInteger.MIN ≤ v)
    (h2 : v ≤ LongInteger.MAX) : LongInteger.validate v = .ok () := by
  rw [LongInteger.validate, if_neg (by omega), if_neg (by omega)]

theorem take_length_exact {α : Type} (l : List α) (n : Nat) (h : l.length = n) :
    l.take n = l := by
  subst h; exact List.take_length ..

theorem drop_length_exact {α : Type} (l : List α) (n : Nat) (h : l.length = n) :
    l.drop n = [] := by
  subst h; exact List.drop_length ..

theorem integer_roundtrip_signed (tagsMem typesMem : Nat → Bool)
    ( tag typ : Nat) (v : Int) (ht : tag < 2 ^ 24) (hm : tagsMem tag = true)
    (hy : typesMem typ = true) (hty : typ < 256)
    (h1 : Integer.MIN ≤ v) (h2 : v ≤ Integer.MAX) :
    (Integer.write tag typ true v).bind
      (Integer.read tagsMem typesMem tag typ true) = .ok (v, ([] : List Nat)) := by
  have e31 : (2 : Int) ^ 31 = 2147483648 := by norm_num
  have ht32 : tag < 2 ^ 32 := by
    have h24 : (2 : Nat) ^ 24 = 16777216 := by norm_num
    have h32 : (2 : Nat) ^ 32 = 4294967296 := by norm_num
    omega
  have hMIN : Integer.MIN = -2147483648 := rfl
  have hMAX : Integer.MAX = 2147483647 := rfl
  have hpack : packi32 v = .ok (natToBytes 4 (v % (2 ^ 32 : Int)).toNat) := by
    rw [packi32, if_neg (by omega)]
  have hpack0 : packi32 0 = .ok (natToBytes 4 0) := by rfl
  have hwv : Integer.write_value true v
      = .ok (natToBytes 4 (v % (2 ^ 32 : Int)).toNat ++ natToBytes 4 0) := by
    simp [Integer.write_value, hpack, hpack0]
  have hwrite : Integer.write tag typ true v
      = .ok (natToBytes 3 tag ++ typ :: (natToBytes 4 4
          ++ (natToBytes 4 (v % (2 ^ 32 : Int)).toNat ++ natToBytes 4 0))) := by
    simp only [Integer.write, Integer.LENGTH,
      base_write_ok tag typ 4 ht32 hty (by norm_num), hwv]
    simp
  rw [hwrite]
  show Integer.read tagsMem typesMem tag typ true _ = _
  rw [Integer.read, base_read_ok tagsMem typesMem tag typ 4 _ ht hm hy
    (by norm_num)]
  have hvb : (natToBytes 4 (v % (2 ^ 32 : Int)).toNat).length = 4 :=
    natToBytes_length ..
  have hpb : (natToBytes 4 0).length = 4 := natToBytes_length ..
  have htake : ((natToBytes 4 (v % (2 ^ 32 : Int)).toNat) ++ natToBytes 4 0).take 4
      = natToBytes 4 (v % (2 ^ 32 : Int)).toNat := take_append_exact _ _ _ hvb
  have hdrop : ((natToBytes 4 (v % (2 ^ 32 : Int)).toNat) ++ natToBytes 4 0).drop 4
      = natToBytes 4 0 := drop_append_exact _ _ _ hvb
  have hpad : unpacki32 (natToBytes 4 0) = 0 := by decide
  simp only [Integer.read_value, Integer.LENGTH, htake, hdrop, hvb, hpb,
    take_length_exact _ 4 hpb, drop_length_exact _ 4 hpb, hpad,
    unpacki32_natToBytes v (by omega) (by omega)]
  simp [integer_validate_ok v h1 h2]

theorem integer_roundtrip_unsigned (tagsMem typesMem : Nat → Bool)
    ( tag typ : Nat) (v : Int) (ht : tag < 2 ^ 24) (hm : tagsMem tag = true)
    (hy : typesMem typ = true) (hty : typ < 256)
    (h1 : 0 ≤ v) (h2 : v ≤ Integer.MAX) :
    (Integer.write tag typ false v).bind
      (Integer.read tagsMem typesMem tag typ false) = .ok (v, ([] : List Nat)) := by
  have e31 : (2 : Int) ^ 31 = 2147483648 := by norm_num
  have e32 : (2 : Int) ^ 32 = 4294967296 := by norm_num
  have ht32 : tag < 2 ^ 32 := by
    have h24 : (2 : Nat) ^ 24 = 16777216 := by norm_num
    have h32 : (2 : Nat) ^ 32 = 4294967296 := by norm_num
    omega
  have hMAX : Integer.MAX = 2147483647 := rfl
  have hMIN : Integer.MIN = -2147483648 := rfl
  have hpack : packu32 v = .ok (natToBytes 4 v.toNat) := by
    rw [packu32, if_neg (by omega)]
  have hpack0 : packu32 0 = .ok (natToBytes 4 0) := by rfl
  have hwv : Integer.write_value false v
      = .ok (natToBytes 4 v.toNat ++ natToBytes 4 0) := by
    simp [Integer.write_value, hpack, hpack0]
  have hwrite : Integer.write tag typ false v
      = .ok (natToBytes 3 tag ++ typ :: (natToBytes 4 4
          ++ (natToBytes 4 v.toNat ++ natToBytes 4 0))) := by
    simp only [Integer.write, Integer.LENGTH,
      base_write_ok tag typ 4 ht32 hty (by norm_num), hwv]
    simp
  rw [hwrite]
  show Integer.read tagsMem typesMem tag typ false _ = _
  rw [Integer.read, base_read_ok tagsMem typesMem tag typ 4 _ ht hm hy
    (by norm_num)]
  have hvb : (natToBytes 4 v.toNat).length = 4 := natToBytes_length ..
  have hpb : (natToBytes 4 0).length = 4 := natToBytes_length ..
  have htake : ((natToBytes 4 v.toNat) ++ natToBytes 4 0).take 4
      = natToBytes 4 v.toNat := take_append_exact _ _ _ hvb
  have hdrop : ((natToBytes 4 v.toNat) ++ natToBytes 4 0).drop 4
      = natToBytes 4 0 := drop_append_exact _ _ _ hvb
  have e256 : (256 : Nat) ^ 4 = 4294967296 := by norm_num
  have hvmod : v.toNat % 256 ^ 4 = v.toNat := Nat.mod_eq_of_lt (by omega)
  have hvval : ((bytesToNat (natToBytes 4 v.toNat)) : Int) = v := by
    rw [bytesToNat_natToBytes, hvmod]
    omega
  have hpadval : ((bytesToNat (natToBytes 4 0)) : Int) = 0 := by decide
  simp only [Integer.read_value, Integer.LENGTH, htake, hdrop, hvb, hpb,
    take_length_exact _ 4 hpb, drop_length_exact _ 4 hpb, hvval, hpadval]
  simp [integer_validate_ok v (by omega) h2]

theorem longinteger_roundtrip (tagsMem typesMem : Nat → Bool)
    ( tag typ : Nat) (v : Int) (ht : tag < 2 ^ 24) (hm : tagsMem tag = true)
    (hy : typesMem typ = true) (hty : typ < 256)
    (h1 : LongInteger.MIN ≤ v) (h2 : v ≤ LongInteger.MAX) :
    (LongInteger.write tag typ v).bind
      (LongInteger.read tagsMem typesMem tag typ) = .ok (v, ([] : List Nat)) := by
  have e63 : (2 : Int) ^ 63 = 9223372036854775808 := by norm_num
  have ht32 : tag < 2 ^ 32 := by
    have h24 : (2 : Nat) ^ 24 = 16777216 := by norm_num
    have h32 : (2 : Nat) ^ 32 = 4294967296 := by norm_num
    omega
  have hMIN : LongInteger.MIN = -9223372036854775808 := rfl
  have hMAX : LongInteger.MAX = 9223372036854775807 := rfl
  have hpack : packi64 v = .ok (natToBytes 8 (v % (2 ^ 64 : Int)).toNat) := by
    rw [packi64, if_neg (by omega)]
  have hwrite : LongInteger.write tag typ v
      = .ok (natToBytes 3 tag ++ typ :: (natToBytes 4 8
          ++ natToBytes 8 (v % (2 ^ 64 : Int)).toNat)) := by
    simp only [LongInteger.write, LongInteger.LENGTH,
      base_write_ok tag typ 8 ht32 hty (by norm_num), hpack]
    simp
  rw [hwrite]
  show LongInteger.read tagsMem typesMem tag typ _ = _
  rw [LongInteger.read, base_read_ok tagsMem typesMem tag typ 8 _ ht hm hy
    (by norm_num)]
  have hvb : (natToBytes 8 (v % (2 ^ 64 : Int)).toNat).length = 8 :=
    natToBytes_length ..
  simp only [LongInteger.read_value, LongInteger.LENGTH,
    take_length_exact _ 8 hvb, drop_length_exact _ 8 hvb, hvb,
    unpacki64_natToBytes v (by omega) (by omega),
    longinteger_validate_ok v h1 h2]
  simp

theorem boolean_roundtrip (tagsMem typesMem : Nat → Bool) ( tag : Nat)
    (v : Bool) (ht : tag < 2 ^ 24) (hm : tagsMem tag = true)
    (hy : typesMem 6 = true) :
    (Boolean.write tag 8 v).bind (Boolean.read tagsMem typesMem tag)
      = .ok ((v, 8), ([] : List Nat)) := by
  have ht32 : tag < 2 ^ 32 := by
    have h24 : (2 : Nat) ^ 24 = 16777216 := by norm_num
    have h32 : (2 : Nat) ^ 32 = 4294967296 := by norm_num
    omega
  have hwrite : Boolean.write tag 8 v
      = .ok (natToBytes 3 tag ++ 6 :: (natToBytes 4 8
          ++ natToBytes 8 (if v then 1 else 0))) := by
    simp only [Boolean.write, base_write_ok tag 6 8 ht32 (by norm_num)
      (by norm_num)]
    simp
  rw [hwrite]
  show Boolean.read tagsMem typesMem tag _ = _
  rw [Boolean.read, base_read_ok tagsMem typesMem tag 6 8 _ ht hm hy
    (by norm_num)]
  have hvb : (natToBytes 8 (if v then 1 else 0)).length = 8 :=
    natToBytes_length ..
  have hval : bytesToNat (natToBytes 8 (if v then 1 else 0))
      = (if v then 1 else 0) := by
    rw [bytesToNat_natToBytes]
    apply Nat.mod_eq_of_lt
    cases v <;> norm_num
  simp only [Boolean.read_value, take_length_exact _ 8 hvb,
    drop_length_exact _ 8 hvb, hvb, hval]
  cases v <;> simp

/-- Decoding a syntactically valid `Enumeration` encoding yields the
unsigned value of the 4 value bytes — with no range restriction, because
the `self.validate()` inside `Integer.read_value` dispatches to
`Enumeration.validate`. -/
theorem enumeration_read_valid (tagsMem typesMem enumMem : Nat → Bool)
    ( tag : Nat) (vb : List Nat) (ht : tag < 2 ^ 24) (hm : tagsMem tag = true)
    (hy : typesMem 5 = true) (hvb : vb.length = 4) (_hb : ∀ b ∈ vb, b < 256)
    (hem : enumMem (bytesToNat vb) = true) :
    Enumeration.read tagsMem typesMem enumMem tag
      (natToBytes 3 tag ++ 5 :: (natToBytes 4 4 ++ (vb ++ [0, 0, 0, 0])))
      = .ok ((bytesToNat vb : Int), ([] : List Nat)) := by
  rw [Enumeration.read,
    base_read_ok tagsMem typesMem tag 5 4 _ ht hm hy (by norm_num)]
  have htake : (vb ++ [0, 0, 0, 0]).take 4 = vb := take_append_exact _ _ _ hvb
  have hdrop : (vb ++ [0, 0, 0, 0]).drop 4 = [0, 0, 0, 0] :=
    drop_append_exact _ _ _ hvb
  have hpb : bytesToNat [0, 0, 0, 0] = 0 := by decide
  have hnat : ((bytesToNat vb : Int)).toNat = bytesToNat vb :=
    Int.toNat_natCast _
  simp only [Enumeration.read_value, Integer.LENGTH, htake, hdrop, hvb]
  simp [hpb, Enumeration.validate, hnat, hem]

theorem enumeration_roundtrip (tagsMem typesMem enumMem : Nat → Bool)
    ( tag : Nat) (code : Int) (ht : tag < 2 ^ 24) (hm : tagsMem tag = true)
    (hy : typesMem 5 = true) (h1 : 0 ≤ code) (h2 : code < 2 ^ 32)
    (hem : enumMem code.toNat = true) :
    (Enumeration.write tag code).bind
      (Enumeration.read tagsMem typesMem enumMem tag)
      = .ok (code, ([] : List Nat)) := by
  have e32 : (2 : Int) ^ 32 = 4294967296 := by norm_num
  have e256 : (256 : Nat) ^ 4 = 4294967296 := by norm_num
  have ht32 : tag < 2 ^ 32 := by
    have h24 : (2 : Nat) ^ 24 = 16777216 := by norm_num
    have h32 : (2 : Nat) ^ 32 = 4294967296 := by norm_num
    omega
  have hpack : packu32 code = .ok (natToBytes 4 code.toNat) := by
    rw [packu32, if_neg (by omega)]
  have hpack0 : packu32 0 = .ok (natToBytes 4 0) := by rfl
  have hwv : Integer.write_value false code
      = .ok (natToBytes 4 code.toNat ++ natToBytes 4 0) := by
    simp [Integer.write_value, hpack, hpack0]
  have hwrite : Enumeration.write tag code
      = .ok (natToBytes 3 tag ++ 5 :: (natToBytes 4 4
          ++ (natToBytes 4 code.toNat ++ natToBytes 4 0))) := by
    simp only [Enumeration.write, Integer.write, Integer.LENGTH,
      base_write_ok tag 5 4 ht32 (by norm_num) (by norm_num), hwv]
    simp
  rw [hwrite]
  show Enumeration.read tagsMem typesMem enumMem tag _ = _
  have hbv : bytesToNat (natToBytes 4 code.toNat) = code.toNat := by
    rw [bytesToNat_natToBytes]
    apply Nat.mod_eq_of_lt
    omega
  have hread := enumeration_read_valid tagsMem typesMem enumMem tag
    (natToBytes 4 code.toNat) ht hm hy (natToBytes_length 4 code.toNat)
    (natToBytes_mem_lt 4 code.toNat) (by rw [hbv]; exact hem)
  have h40 : natToBytes 4 (0 : Nat) = [0, 0, 0, 0] := by decide
  rw [h40, hread, hbv]
  have hc : ((code.toNat : Int)) = code := by omega
  rw [hc]

/-- Embeds `c.encode()` of an ASCII code point is the single byte. -/
theorem utf8Bytes_ascii (c : Nat) (h : c < 128) : utf8Bytes c = [c] := by
  rw [utf8Bytes, if_pos h]

theorem write_chars_ascii (v : List Nat) (h : ∀ c ∈ v, c < 128) :
    TextString.write_chars v = .ok v := by
  induction v with
  | nil => rfl
  | cons c cs ih =>
    have hc : c < 128 := h c (by simp)
    have hcs : ∀ x ∈ cs, x < 128 := fun x hx => h x (by simp [hx])
    simp only [TextString.write_chars, utf8Bytes_ascii c hc,
      List.length_singleton, ih hcs]
    simp

theorem read_chars_spec (v : List Nat) (rest : List Nat)
    (h : ∀ c ∈ v, c < 128) :
    TextString.read_chars v.length (v ++ rest) = .ok (v, rest) := by
  induction v with
  | nil => rfl
  | cons c cs ih =>
    have hc : c < 128 := h c (by simp)
    have hcs : ∀ x ∈ cs, x < 128 := fun x hx => h x (by simp [hx])
    simp only [List.length_cons, List.cons_append, TextString.read_chars,
      if_neg (by omega : ¬ 128 ≤ c), ih hcs]

theorem read_pads_zeros (k : Nat) (rest : List Nat) :
    read_pads k (List.replicate k 0 ++ rest) = .ok rest := by
  induction k with
  | zero => rfl
  | succ k ih =>
    simp only [List.replicate_succ, List.cons_append, read_pads,
      if_neg (by omega : ¬ (0 : Nat) ≠ 0)]
    exact ih

theorem textstring_roundtrip (tagsMem typesMem : Nat → Bool) ( tag : Nat)
    (v : List Nat) (ht : tag < 2 ^ 24) (hm : tagsMem tag = true)
    (hy : typesMem 7 = true) (hascii : ∀ c ∈ v, c < 128)
    (hlen : v.length < 2 ^ 32) :
    (TextString.write tag (TextString.init v)).bind
      (TextString.read tagsMem typesMem tag)
      = .ok (⟨v, v.length, 8 - v.length % 8⟩, ([] : List Nat)) := by
  have ht32 : tag < 2 ^ 32 := by
    have h24 : (2 : Nat) ^ 24 = 16777216 := by norm_num
    have h32 : (2 : Nat) ^ 32 = 4294967296 := by norm_num
    omega
  have hmod : v.length % 8 < 8 := Nat.mod_lt _ (by norm_num)
  have hwv : TextString.write_value (TextString.init v)
      = .ok (v ++ List.replicate
          (if 8 - v.length % 8 = 8 then 0 else 8 - v.length % 8) 0) := by
    simp only [TextString.write_value, TextString.init,
      TextString.PADDING_SIZE, write_chars_ascii v hascii]
  have hplen : (TextString.init v).len = v.length := rfl
  have hwrite : TextString.write tag (TextString.init v)
      = .ok (natToBytes 3 tag ++ 7 :: (natToBytes 4 v.length
          ++ (v ++ List.replicate
            (if 8 - v.length % 8 = 8 then 0 else 8 - v.length % 8) 0))) := by
    simp only [TextString.write, hplen, hwv,
      base_write_ok tag 7 v.length ht32 (by norm_num) hlen]
    simp
  rw [hwrite]
  show TextString.read tagsMem typesMem tag _ = _
  rw [TextString.read, base_read_ok tagsMem typesMem tag 7 v.length _ ht hm hy
    hlen]
  simp only [TextString.read_value, read_chars_spec v _ hascii,
    TextString.PADDING_SIZE]
  by_cases h8 : v.length % 8 = 0
  · rw [if_neg (by omega : ¬ 8 - v.length % 8 < 8)]
    simp [h8]
  · rw [if_pos (by omega : 8 - v.length % 8 < 8)]
    rw [if_neg (by omega : ¬ 8 - v.length % 8 = 8)]
    rw [← List.append_nil (List.replicate (8 - v.length % 8) (0 : Nat)),
      read_pads_zeros]

theorem write_bytes_ok (v : List Nat) (h : ∀ b ∈ v, b < 256) :
    ByteString.write_bytes v = .ok v := by
  induction v with
  | nil => rfl
  | cons b bs ih =>
    have hb : b < 256 := h b (by simp)
    have hbs : ∀ x ∈ bs, x < 256 := fun x hx => h x (by simp [hx])
    simp only [ByteString.write_bytes, if_neg (by omega : ¬ 256 ≤ b), ih hbs]

theorem bytestring_read_bytes_spec (v : List Nat) (rest : List Nat) :
    ByteString.read_bytes v.length (v ++ rest) = .ok (v, rest) := by
  induction v with
  | nil => rfl
  | cons b bs ih =>
    simp only [List.length_cons, List.cons_append, ByteString.read_bytes, ih]

theorem bytestring_roundtrip (tagsMem typesMem : Nat → Bool) ( tag : Nat)
    (v : List Nat) (ht : tag < 2 ^ 24) (hm : tagsMem tag = true)
    (hy : typesMem 8 = true) (hbytes : ∀ b ∈ v, b < 256)
    (hlen : v.length < 2 ^ 32) :
    (ByteString.write tag (ByteString.init v)).bind
      (ByteString.read tagsMem typesMem tag)
      = .ok (ByteString.init v, ([] : List Nat)) := by
  have ht32 : tag < 2 ^ 32 := by
    have h24 : (2 : Nat) ^ 24 = 16777216 := by norm_num
    have h32 : (2 : Nat) ^ 32 = 4294967296 := by norm_num
    omega
  have hmod : v.length % 8 < 8 := Nat.mod_lt _ (by norm_num)
  have hwrite : ByteString.write tag (ByteString.init v)
      = .ok (natToBytes 3 tag ++ 8 :: (natToBytes 4 v.length
          ++ (v ++ List.replicate
            (if 8 - v.length % 8 = 8 then 0 else 8 - v.length % 8) 0))) := by
    simp only [ByteString.write, ByteString.init, TextString.PADDING_SIZE,
      write_bytes_ok v hbytes,
      base_write_ok tag 8 v.length ht32 (by norm_num) hlen]
    simp
  rw [hwrite]
  show ByteString.read tagsMem typesMem tag _ = _
  rw [ByteString.read, base_read_ok tagsMem typesMem tag 8 v.length _ ht hm hy
    hlen]
  simp only [ByteString.read_value, bytestring_read_bytes_spec v _,
    TextString.PADDING_SIZE, ByteString.init]
  by_cases h8 : v.length % 8 = 0
  · simp [h8, read_pads]
  · rw [if_neg (by omega : ¬ 8 - v.length % 8 = 8)]
    rw [if_pos (by omega : 8 - v.length % 8 < 8)]
    rw [← List.append_nil (List.replicate (8 - v.length % 8) (0 : Nat)),
      read_pads_zeros]

/-!
## Decode-then-encode lemmas on syntactically valid byte strings
-/

theorem unpacki32_bounds (vb : List Nat) (hvb : vb.length = 4)
    (hb : ∀ b ∈ vb, b < 256) :
    Integer.MIN ≤ unpacki32 vb ∧ unpacki32 vb ≤ Integer.MAX := by
  have hlt : bytesToNat vb < 256 ^ 4 := by
    have := bytesToNat_lt vb hb
    rw [hvb] at this
    exact this
  have e256 : (256 : Nat) ^ 4 = 4294967296 := by norm_num
  have e31 : (2 : Nat) ^ 31 = 2147483648 := by norm_num
  have hMIN : Integer.MIN = -2147483648 := rfl
  have hMAX : Integer.MAX = 2147483647 := rfl
  rw [unpacki32]
  by_cases hc : bytesToNat vb < 2 ^ 31
  · rw [if_pos hc]
    omega
  · rw [if_neg hc]
    omega

/-- Decoding a syntactically valid signed `Integer` encoding yields the
signed value of the 4 value bytes and drains the stream. -/
theorem integer_read_valid_signed (tagsMem typesMem : Nat → Bool)
    ( tag typ : Nat) (vb : List Nat) (ht : tag < 2 ^ 24)
    (hm : tagsMem tag = true) (hy : typesMem typ = true)
    (hvb : vb.length = 4) (hb : ∀ b ∈ vb, b < 256) :
    Integer.read tagsMem typesMem tag typ true
      (natToBytes 3 tag ++ typ :: (natToBytes 4 4 ++ (vb ++ [0, 0, 0, 0])))
      = .ok (unpacki32 vb, ([] : List Nat)) := by
  rw [Integer.read, base_read_ok tagsMem typesMem tag typ 4 _ ht hm hy
    (by norm_num)]
  obtain ⟨hlo, hhi⟩ := unpacki32_bounds vb hvb hb
  have hpad : unpacki32 [0, 0, 0, 0] = 0 := by decide
  have htake : (vb ++ [0, 0, 0, 0]).take 4 = vb := take_append_exact _ _ _ hvb
  have hdrop : (vb ++ [0, 0, 0, 0]).drop 4 = [0, 0, 0, 0] :=
    drop_append_exact _ _ _ hvb
  simp only [Integer.read_value, Integer.LENGTH, htake, hdrop, hvb]
  simp [hpad, integer_validate_ok _ hlo hhi]

/-- Decoding a syntactically valid unsigned `Integer` encoding whose value
is below `2^31` (larger values fail the range validation) yields the
unsigned value of the 4 value bytes. -/
theorem integer_read_valid_unsigned (tagsMem typesMem : Nat → Bool)
    ( tag typ : Nat) (vb : List Nat) (ht : tag < 2 ^ 24)
    (hm : tagsMem tag = true) (hy : typesMem typ = true)
    (hvb : vb.length = 4) (_hb : ∀ b ∈ vb, b < 256)
    (hsmall : bytesToNat vb < 2 ^ 31) :
    Integer.read tagsMem typesMem tag typ false
      (natToBytes 3 tag ++ typ :: (natToBytes 4 4 ++ (vb ++ [0, 0, 0, 0])))
      = .ok ((bytesToNat vb : Int), ([] : List Nat)) := by
  rw [Integer.read, base_read_ok tagsMem typesMem tag typ 4 _ ht hm hy
    (by norm_num)]
  have e31 : (2 : Nat) ^ 31 = 2147483648 := by norm_num
  have hMAX : Integer.MAX = 2147483647 := rfl
  have hMIN : Integer.MIN = -2147483648 := rfl
  have hvalid : Integer.validate ((bytesToNat vb : Int)) = .ok () :=
    integer_validate_ok _ (by omega) (by omega)
  have htake : (vb ++ [0, 0, 0, 0]).take 4 = vb := take_append_exact _ _ _ hvb
  have hdrop : (vb ++ [0, 0, 0, 0]).drop 4 = [0, 0, 0, 0] :=
    drop_append_exact _ _ _ hvb
  have hpb : bytesToNat [0, 0, 0, 0] = 0 := by decide
  simp only [Integer.read_value, Integer.LENGTH, htake, hdrop, hvb]
  simp [hpb, hvalid]

/-- Re-encoding a decoded unsigned `Integer` (the `Enumeration` wire form)
reproduces the valid byte string. -/
theorem integer_reencode_unsigned (tagsMem typesMem : Nat → Bool)
    ( tag typ : Nat) (vb : List Nat) (ht : tag < 2 ^ 24)
    (hm : tagsMem tag = true) (hy : typesMem typ = true) (hty : typ < 256)
    (hvb : vb.length = 4) (hb : ∀ b ∈ vb, b < 256)
    (hsmall : bytesToNat vb < 2 ^ 31) :
    (Integer.read tagsMem typesMem tag typ false
        (natToBytes 3 tag ++ typ :: (natToBytes 4 4 ++ (vb ++ [0, 0, 0, 0])))).bind
      (fun p => Integer.write tag typ false p.1)
      = .ok (natToBytes 3 tag ++ typ :: (natToBytes 4 4 ++ (vb ++ [0, 0, 0, 0]))) := by
  rw [integer_read_valid_unsigned tagsMem typesMem tag typ vb ht hm hy hvb hb
    hsmall]
  have ht32 : tag < 2 ^ 32 := by
    have h24 : (2 : Nat) ^ 24 = 16777216 := by norm_num
    have h32 : (2 : Nat) ^ 32 = 4294967296 := by norm_num
    omega
  have e31 : (2 : Int) ^ 31 = 2147483648 := by norm_num
  have e31n : (2 : Nat) ^ 31 = 2147483648 := by norm_num
  have e32 : (2 : Int) ^ 32 = 4294967296 := by norm_num
  have hinv := natToBytes_bytesToNat vb hb
  rw [hvb] at hinv
  have hpacku : packu32 ((bytesToNat vb : Int)) = .ok vb := by
    rw [packu32, if_neg (by omega)]
    have h1 : ((bytesToNat vb : Int)).toNat = bytesToNat vb := by omega
    rw [h1, hinv]
  simp only [Except.bind]
  simp only [Integer.write, Integer.LENGTH,
    base_write_ok tag typ 4 ht32 hty (by norm_num), Integer.write_value,
    hpacku]
  have hpack0 : packu32 0 = .ok (natToBytes 4 0) := by rfl
  simp only [if_neg (by simp : ¬ (false = true)), hpack0]
  have h40 : natToBytes 4 0 = [0, 0, 0, 0] := by decide
  simp [h40]

/-- A stream with fewer than 3 bytes makes `read_tag` fail inside
`unpack` with a `struct.error`, not with `ReadValueError`. -/
theorem read_tag_short (tagsMem : Nat → Bool) (expected : Nat) (s : List Nat)
    (h : s.length < 3) : read_tag tagsMem expected s = .error .structError := by
  simp only [read_tag]
  rw [if_pos (by rw [List.length_take]; omega)]

theorem read_tag_nonmember (tagsMem : Nat → Bool) (expected b0 b1 b2 : Nat)
    (rest : List Nat) (hmem : tagsMem (bytesToNat [0, b0, b1, b2]) = false) :
    read_tag tagsMem expected (b0 :: b1 :: b2 :: rest)
      = .error (.valueError "not a Tags member") := by
  simp only [read_tag, List.take_succ_cons, List.take_zero]
  rw [if_neg (by simp)]
  rw [if_pos (by simp [hmem])]

theorem read_tag_mismatch (tagsMem : Nat → Bool) (expected b0 b1 b2 : Nat)
    (rest : List Nat) (hmem : tagsMem (bytesToNat [0, b0, b1, b2]) = true)
    (hne : bytesToNat [0, b0, b1, b2] ≠ expected) :
    read_tag tagsMem expected (b0 :: b1 :: b2 :: rest)
      = .error (.readValueError "tag") := by
  simp only [read_tag, List.take_succ_cons, List.take_zero]
  rw [if_neg (by simp)]
  rw [if_neg (by simp [hmem])]
  rw [if_pos hne]

theorem read_type_short (typesMem : Nat → Bool) (expected : Nat) :
    read_type typesMem expected [] = .error (.readValueError "type") := rfl

theorem read_type_nonmember (typesMem : Nat → Bool) (expected t : Nat)
    (rest : List Nat) (hm : typesMem t = false) :
    read_type typesMem expected (t :: rest)
      = .error (.valueError "not a Types member") := by
  simp only [read_type]
  rw [if_pos (by simp [hm])]

theorem read_type_mismatch (typesMem : Nat → Bool) (expected t : Nat)
    (rest : List Nat) (hm : typesMem t = true) (hne : t ≠ expected) :
    read_type typesMem expected (t :: rest)
      = .error (.readValueError "type") := by
  simp only [read_type]
  rw [if_neg (by simp [hm])]
  rw [if_pos hne]

theorem read_length_short (s : List Nat) (h : s.length < 4) :
    read_length s = .error (.readValueError "length") := by
  simp only [read_length]
  rw [if_pos (by rw [List.length_take]; omega)]

/-!
## BigInteger decode length handling
-/

theorem byteBits_ne_nil (b : Nat) : byteBits b ≠ [] := by
  have h := binFmt_ne_nil b
  simp only [byteBits]
  by_cases hp : (binFmt b).length % 8 ≠ 0
  · rw [if_pos hp]
    intro hc
    exact h (List.append_eq_nil.mp hc).2
  · rw [if_neg hp]
    exact h

theorem biginteger_read_bad_length (tagsMem typesMem : Nat → Bool)
    ( tag len : Nat) (rest : List Nat) (ht : tag < 2 ^ 24)
    (hm : tagsMem tag = true) (hy : typesMem 4 = true) (hl : len < 2 ^ 32)
    (hmod : len % 8 ≠ 0) :
    BigInteger.read tagsMem typesMem tag
      (natToBytes 3 tag ++ 4 :: (natToBytes 4 len ++ rest))
      = .error .invalidPrimitiveLength := by
  rw [BigInteger.read, base_read_ok tagsMem typesMem tag 4 len rest ht hm hy hl]
  simp [hmod]

theorem biginteger_read_zero_length (tagsMem typesMem : Nat → Bool)
    ( tag : Nat) (rest : List Nat) (ht : tag < 2 ^ 24)
    (hm : tagsMem tag = true) (hy : typesMem 4 = true) :
    BigInteger.read tagsMem typesMem tag
      (natToBytes 3 tag ++ 4 :: (natToBytes 4 0 ++ rest))
      = .error .indexError := by
  rw [BigInteger.read,
    base_read_ok tagsMem typesMem tag 4 0 rest ht hm hy (by norm_num)]
  simp [BigInteger.read_bits]

theorem biginteger_read_consumes (tagsMem typesMem : Nat → Bool)
    ( tag : Nat) (data rest : List Nat) (ht : tag < 2 ^ 24)
    (hm : tagsMem tag = true) (hy : typesMem 4 = true)
    (hl : data.length < 2 ^ 32) (hmod : data.length % 8 = 0)
    (hne : data ≠ []) :
    ∃ v, BigInteger.read tagsMem typesMem tag
      (natToBytes 3 tag ++ 4 :: (natToBytes 4 data.length ++ (data ++ rest)))
      = .ok (v, rest) := by
  rw [BigInteger.read,
    base_read_ok tagsMem typesMem tag 4 data.length (data ++ rest) ht hm hy hl]
  simp only [hmod]
  rw [read_bits_spec data rest]
  have hflat : (data.map byteBits).flatten ≠ [] := by
    cases data with
    | nil => exact absurd rfl hne
    | cons d t =>
      simp only [List.map_cons, List.flatten_cons]
      intro hc
      exact byteBits_ne_nil d (List.append_eq_nil.mp hc).1
  cases hft : (data.map byteBits).flatten with
  | nil => exact absurd hft hflat
  | cons b t =>
    cases b with
    | true =>
      refine ⟨-(bitsToNat (pivotInc (mapNot (true :: t))) : Int), ?_⟩
      simp [hft]
    | false =>
      refine ⟨(bitsToNat (false :: t) : Int), ?_⟩
      simp [hft]

/-!
## Construction (validate) characterizations
-/

/-- Embeds `Integer.__init__` accepts exactly the signed 32-bit range, regardless
of the signedness flag. -/
theorem integer_init_spec (signed : Bool) (v : Int) :
    Integer.init signed v
      = if Integer.MAX < v then
          .error (.valueError "integer value greater than accepted max")
        else if v < Integer.MIN then
          .error (.valueError "integer value less than accepted min")
        else .ok (v, signed) := by
  rw [Integer.init, Integer.validate]
  by_cases h1 : Integer.MAX < v
  · simp [h1]
  · by_cases h2 : v < Integer.MIN <;> simp [h1, h2]

/-!
## Claim theorems
-/

/-- C1, amended.  For every primitive variant and every value in the domain
that construction and encoding actually accept, decoding the encoding of
the value over the same tag and expected type yields the value back and
drains the stream.  The per-variant domains are: Integer and Interval the
signed 32-bit range (both use the signed pack string); LongInteger and
DateTime the signed 64-bit range; BigInteger every integer whose encoded
byte count fits the 32-bit length field; Enumeration all the codes of its
enumeration in `[0, 2^32 - 1]` (the `validate` override means no range
check runs on the Enumeration path); Boolean both truth values;
ByteString every byte sequence; and TextString only ASCII-only strings —
the restriction forced by the counterexample: for a non-ASCII value the
encoder itself fails, so `decode(encode(v)) = v` cannot hold on the full
declared domain. -/
theorem C1_decode_encode_roundtrip :
    (∀ (tagsMem typesMem : Nat → Bool) ( tag : Nat) (v : Int),
      tag < 2 ^ 24 → tagsMem tag = true → typesMem 2 = true →
      Integer.MIN ≤ v → v ≤ Integer.MAX →
      (Integer.write tag 2 true v).bind
        (Integer.read tagsMem typesMem tag 2 true) = .ok (v, []))
    ∧ (∀ (tagsMem typesMem : Nat → Bool) ( tag : Nat) (v : Int),
      tag < 2 ^ 24 → tagsMem tag = true → typesMem 3 = true →
      LongInteger.MIN ≤ v → v ≤ LongInteger.MAX →
      (LongInteger.write tag 3 v).bind
        (LongInteger.read tagsMem typesMem tag 3) = .ok (v, []))
    ∧ (∀ (tagsMem typesMem : Nat → Bool) ( tag : Nat) (v : Int),
      tag < 2 ^ 24 → tagsMem tag = true → typesMem 4 = true →
      (BigInteger.value_bytes v).length < 2 ^ 32 →
      (BigInteger.write tag v).bind
        (BigInteger.read tagsMem typesMem tag) = .ok (v, []))
    ∧ (∀ (tagsMem typesMem enumMem : Nat → Bool) ( tag : Nat) (code : Int),
      tag < 2 ^ 24 → tagsMem tag = true → typesMem 5 = true →
      0 ≤ code → code < 2 ^ 32 → enumMem code.toNat = true →
      (Enumeration.write tag code).bind
        (Enumeration.read tagsMem typesMem enumMem tag) = .ok (code, []))
    ∧ (∀ (tagsMem typesMem : Nat → Bool) ( tag : Nat) (v : Bool),
      tag < 2 ^ 24 → tagsMem tag = true → typesMem 6 = true →
      (Boolean.write tag 8 v).bind
        (Boolean.read tagsMem typesMem tag) = .ok ((v, 8), []))
    ∧ (∀ (tagsMem typesMem : Nat → Bool) ( tag : Nat) (v : List Nat),
      tag < 2 ^ 24 → tagsMem tag = true → typesMem 7 = true →
      (∀ c ∈ v, c < 128) → v.length < 2 ^ 32 →
      (TextString.write tag (TextString.init v)).bind
        (TextString.read tagsMem typesMem tag)
        = .ok (⟨v, v.length, 8 - v.length % 8⟩, []))
    ∧ (∀ (tagsMem typesMem : Nat → Bool) ( tag : Nat) (v : List Nat),
      tag < 2 ^ 24 → tagsMem tag = true → typesMem 8 = true →
      (∀ b ∈ v, b < 256) → v.length < 2 ^ 32 →
      (ByteString.write tag (ByteString.init v)).bind
        (ByteString.read tagsMem typesMem tag) = .ok (ByteString.init v, []))
    ∧ (∀ (tagsMem typesMem : Nat → Bool) ( tag : Nat) (v : Int),
      tag < 2 ^ 24 → tagsMem tag = true → typesMem 9 = true →
      LongInteger.MIN ≤ v → v ≤ LongInteger.MAX →
      (DateTime.write tag v).bind
        (DateTime.read tagsMem typesMem tag) = .ok (v, []))
    ∧ (∀ (tagsMem typesMem : Nat → Bool) ( tag : Nat) (v : Int),
      tag < 2 ^ 24 → tagsMem tag = true → typesMem 10 = true →
      Integer.MIN ≤ v → v ≤ Integer.MAX →
      (Interval.write tag v).bind
        (Interval.read tagsMem typesMem tag) = .ok (v, [])) := by
  refine ⟨?_, ?_, ?_, ?_, ?_, ?_, ?_, ?_, ?_⟩
  · intro tagsMem typesMem t v ht hm hy h1 h2
    exact integer_roundtrip_signed tagsMem typesMem t 2 v ht hm hy
      (by norm_num) h1 h2
  · intro tagsMem typesMem t v ht hm hy h1 h2
    exact longinteger_roundtrip tagsMem typesMem t 3 v ht hm hy
      (by norm_num) h1 h2
  · intro tagsMem typesMem t v ht hm hy hl
    exact bigInteger_roundtrip tagsMem typesMem t v ht hm hy hl
  · intro tagsMem typesMem enumMem t code ht hm hy h1 h2 hem
    exact enumeration_roundtrip tagsMem typesMem enumMem t code ht hm hy
      h1 h2 hem
  · intro tagsMem typesMem t v ht hm hy
    exact boolean_roundtrip tagsMem typesMem t v ht hm hy
  · intro tagsMem typesMem t v ht hm hy hascii hl
    exact textstring_roundtrip tagsMem typesMem t v ht hm hy hascii hl
  · intro tagsMem typesMem t v ht hm hy hb hl
    exact bytestring_roundtrip tagsMem typesMem t v ht hm hy hb hl
  · intro tagsMem typesMem t v ht hm hy h1 h2
    exact longinteger_roundtrip tagsMem typesMem t 9 v ht hm hy
      (by norm_num) h1 h2
  · intro tagsMem typesMem t v ht hm hy h1 h2
    exact integer_roundtrip_signed tagsMem typesMem t 10 v ht hm hy
      (by norm_num) h1 h2

set_option maxRecDepth 8000 in
/-- C1 witness: the round-trip theorem applied at concrete inputs — the
spec scenario `Integer 8` under tag `0x420020`, a BigInteger, and an
Enumeration member with the upper-range code `2^31`. -/
theorem C1_decode_encode_roundtrip_witness :
    sampleTags 0x420020 = true
    ∧ (Integer.write 0x420020 2 true 8).bind
        (Integer.read sampleTags sampleTypes 0x420020 2 true) = .ok (8, [])
    ∧ (BigInteger.write 0x420020 (-1)).bind
        (BigInteger.read sampleTags sampleTypes 0x420020) = .ok (-1, [])
    ∧ (Enumeration.write 0x420020 (2 ^ 31)).bind
        (Enumeration.read sampleTags sampleTypes sampleEnum 0x420020)
        = .ok (2 ^ 31, []) :=
  ⟨by decide,
    C1_decode_encode_roundtrip.1 sampleTags sampleTypes 0x420020 8
      (by decide) (by decide) (by decide) (by decide) (by decide),
    (C1_decode_encode_roundtrip.2.2.1) sampleTags sampleTypes 0x420020 (-1)
      (by decide) (by decide) (by decide) (by decide),
    (C1_decode_encode_roundtrip.2.2.2.1) sampleTags sampleTypes sampleEnum
      0x420020 (2 ^ 31) (by decide) (by decide) (by decide) (by decide)
      (by decide) (by decide)⟩

/-- C1 counterexample: on the non-ASCII value "é" (code point 0xE9) the
encoder fails with a `struct.error` (the UTF-8 encoding of the character is
2 bytes and `pack('!c', ...)` demands one), so the claimed round-trip over
TextString's full declared domain is false. -/
theorem C1_textstring_non_ascii_counterexample :
    (TextString.write 0x420020 (TextString.init [233])).bind
      (TextString.read sampleTags sampleTypes 0x420020)
      = .error .structError := by rfl

set_option maxRecDepth 8000 in
/-- C3: BigInteger encoding is not always minimal.  At the failing input
`v = -2^63` the minimal two's-complement representation padded to the
nearest 8-byte boundary is the 8 bytes `80 00 00 00 00 00 00 00` (which
the decoder maps back to `-2^63`, third conjunct), but the source pads the
magnitude's bit length to the next full 64-bit word *before* the sign
conversion and therefore writes 16 bytes.  The zero case (`8` zero bytes)
and the `>= 8` bytes floor do hold (last conjuncts). -/
theorem C3_biginteger_write_not_minimal :
    BigInteger.value_bytes (-(2 ^ 63))
      = [255, 255, 255, 255, 255, 255, 255, 255, 128, 0, 0, 0, 0, 0, 0, 0]
    ∧ BigInteger.read sampleTags sampleTypes 0x420020
        ([0x42, 0, 0x20, 4, 0, 0, 0, 8] ++ [128, 0, 0, 0, 0, 0, 0, 0])
        = .ok (-(2 ^ 63), [])
    ∧ BigInteger.value_bytes 0 = [0, 0, 0, 0, 0, 0, 0, 0]
    ∧ (∀ v : Int, 8 ≤ (BigInteger.value_bytes v).length) := by
  refine ⟨by decide, by rfl, by decide, ?_⟩
  intro v
  obtain ⟨⟨_, hge⟩, _, _⟩ := value_bits_props v
  have hceil : ((BigInteger.value_bits v).length + 7) / 8
      = (BigInteger.value_bits v).length / 8 := by omega
  rw [BigInteger.value_bytes, hceil, bitsToBytesN_length]
  omega

/-- C4, amended.  `Interval.__init__` passes the *signed* default to
`Integer.__init__`, so Interval is wire-identical to a *signed* Integer
with type byte 0x0A: construction succeeds exactly on the signed range
`[-2^31, 2^31 - 1]` (first three conjuncts; values in `[2^31, 2^32 - 1]`
are rejected, negative values accepted), its writer is literally the
signed Integer writer with type byte 10 (fourth conjunct), and decoding
interprets the 4 value bytes as signed (fifth conjunct). -/
theorem C4_interval_is_signed_integer_alias :
    (∀ v : Int, Integer.MIN ≤ v → v ≤ Integer.MAX →
      Interval.init v = .ok (v, true))
    ∧ (∀ v : Int, Integer.MAX < v →
      Interval.init v
        = .error (.valueError "integer value greater than accepted max"))
    ∧ (∀ v : Int, v < Integer.MIN →
      Interval.init v
        = .error (.valueError "integer value less than accepted min"))
    ∧ (∀ ( tag : Nat) (v : Int), Interval.write tag v = Integer.write tag 10 true v)
    ∧ (∀ (tagsMem typesMem : Nat → Bool) ( tag : Nat) (vb : List Nat),
      tag < 2 ^ 24 → tagsMem tag = true → typesMem 10 = true →
      vb.length = 4 → (∀ b ∈ vb, b < 256) →
      Interval.read tagsMem typesMem tag
        (natToBytes 3 tag ++ 10 :: (natToBytes 4 4 ++ (vb ++ [0, 0, 0, 0])))
        = .ok (unpacki32 vb, [])) := by
  refine ⟨?_, ?_, ?_, fun _ _ => rfl, ?_⟩
  · intro v h1 h2
    rw [Interval.init, integer_init_spec, if_neg (by omega), if_neg (by omega)]
  · intro v h1
    rw [Interval.init, integer_init_spec, if_pos h1]
  · intro v h1
    have hMM : Integer.MIN ≤ Integer.MAX := by decide
    rw [Interval.init, integer_init_spec, if_neg (by omega), if_pos h1]
  · intro tagsMem typesMem t vb ht hm hy hvb hb
    exact integer_read_valid_signed tagsMem typesMem t 10 vb ht hm hy hvb hb

/-- C4 witness: Interval construction and signed decoding at concrete
inputs. -/
theorem C4_interval_is_signed_integer_alias_witness :
    Interval.init 7 = .ok (7, true)
    ∧ Interval.read sampleTags sampleTypes 0x420020
        (natToBytes 3 0x420020 ++ 10 :: (natToBytes 4 4
          ++ ([0, 0, 0, 7] ++ [0, 0, 0, 0]))) = .ok (unpacki32 [0, 0, 0, 7], []) :=
  ⟨C4_interval_is_signed_integer_alias.1 7 (by decide) (by decide),
    C4_interval_is_signed_integer_alias.2.2.2.2 sampleTags sampleTypes
      0x420020 [0, 0, 0, 7] (by decide) (by decide) (by decide) (by decide)
      (by decide)⟩

/-- C4 counterexample: `2^31` lies in the claimed domain `[0, 2^32 - 1]`
but Interval construction rejects it with the signed range error, and the
negative value `-1` (outside the claimed domain) is accepted. -/
theorem C4_interval_unsigned_counterexample :
    Interval.init (2 ^ 31)
      = .error (.valueError "integer value greater than accepted max")
    ∧ Interval.init (-1) = .ok (-1, true) := ⟨by rfl, by rfl⟩

/-- C5, amended.  `Integer.validate` ignores the signedness flag, so
unsigned-mode construction succeeds exactly on the *signed* 32-bit range
`[-2^31, 2^31 - 1]`, not on `[0, 2^32 - 1]`: the full piecewise behaviour
(first conjunct), success exactly on the signed range (second), and the
flag-independence of the outcome (third). -/
theorem C5_unsigned_construction_range :
    (∀ v : Int, Integer.init false v
        = if Integer.MAX < v then
            .error (.valueError "integer value greater than accepted max")
          else if v < Integer.MIN then
            .error (.valueError "integer value less than accepted min")
          else .ok (v, false))
    ∧ (∀ v : Int, (∃ p, Integer.init false v = .ok p)
        ↔ (Integer.MIN ≤ v ∧ v ≤ Integer.MAX))
    ∧ (∀ v : Int,
        (∃ p, Integer.init false v = .ok p) ↔ (∃ p, Integer.init true v = .ok p)) := by
  have hchar := integer_init_spec
  refine ⟨hchar false, ?_, ?_⟩
  · intro v
    rw [hchar false]
    constructor
    · intro ⟨p, hp⟩
      by_cases h1 : Integer.MAX < v
      · rw [if_pos h1] at hp; exact absurd hp (by simp)
      · by_cases h2 : v < Integer.MIN
        · rw [if_neg h1, if_pos h2] at hp; exact absurd hp (by simp)
        · omega
    · intro ⟨h1, h2⟩
      rw [if_neg (by omega), if_neg (by omega)]
      exact ⟨(v, false), rfl⟩
  · intro v
    rw [hchar false, hchar true]
    by_cases h1 : Integer.MAX < v
    · rw [if_pos h1, if_pos h1]
    · by_cases h2 : v < Integer.MIN
      · rw [if_neg h1, if_neg h1, if_pos h2, if_pos h2]
      · rw [if_neg h1, if_neg h1, if_neg h2, if_neg h2]
        simp

/-- C5 witness: the characterization applied at a concrete value in the
unsigned mode. -/
theorem C5_unsigned_construction_range_witness :
    (Integer.MIN ≤ (5 : Int) ∧ (5 : Int) ≤ Integer.MAX)
    ∧ (∃ p, Integer.init false 5 = .ok p) :=
  ⟨by decide, (C5_unsigned_construction_range.2.1 5).mpr (by decide)⟩

/-- C5 counterexample: `2^31` lies in the claimed unsigned domain
`[0, 2^32 - 1]` but construction fails with the signed range error, while
`-1` lies outside it but is accepted. -/
theorem C5_unsigned_range_counterexample :
    Integer.init false (2 ^ 31)
      = .error (.valueError "integer value greater than accepted max")
    ∧ Integer.init false (-1) = .ok (-1, false) := ⟨by rfl, by rfl⟩

/-- C6: the failing input is the one-character string "é" (code point
0xE9).  `TextString.__init__` sets the header length field to the number
of code points (1), not the number of UTF-8 bytes (2, second conjunct),
and the value writer then fails with a `struct.error` because
`pack('!c', ...)` is handed the 2-byte encoding (third conjunct) — so the
claimed header/value/padding layout is never produced for non-ASCII
values.  For the ASCII values the writer does accept, the claim's
`(8 - length mod 8) mod 8` zero pad count holds (fourth conjunct). -/
theorem C6_textstring_length_is_char_count :
    (TextString.init [233]).len = 1
    ∧ utf8Bytes 233 = [195, 169]
    ∧ TextString.write 0x420020 (TextString.init [233]) = .error .structError
    ∧ (∀ v : List Nat, (∀ c ∈ v, c < 128) →
        TextString.write_value (TextString.init v)
          = .ok (v ++ List.replicate ((8 - v.length % 8) % 8) 0)) := by
  refine ⟨by rfl, by rfl, by rfl, ?_⟩
  intro v hascii
  have hm8 : v.length % 8 < 8 := Nat.mod_lt _ (by norm_num)
  simp only [TextString.write_value, TextString.init,
    TextString.PADDING_SIZE, write_chars_ascii v hascii]
  by_cases h8 : v.length % 8 = 0
  · rw [if_pos (by omega), (by omega : (8 - v.length % 8) % 8 = 0)]
  · rw [if_neg (by omega), (by omega : (8 - v.length % 8) % 8 = 8 - v.length % 8)]

/-- C6 witness: the ASCII padding conjunct applied to the spec scenario
string "Hello World" (11 characters, 5 pad bytes). -/
theorem C6_textstring_length_is_char_count_witness :
    (∀ c ∈ [72, 101, 108, 108, 111, 32, 87, 111, 114, 108, 100], c < 128)
    ∧ TextString.write_value
        (TextString.init [72, 101, 108, 108, 111, 32, 87, 111, 114, 108, 100])
      = .ok ([72, 101, 108, 108, 111, 32, 87, 111, 114, 108, 100]
          ++ List.replicate 5 0) :=
  ⟨by decide,
    C6_textstring_length_is_char_count.2.2.2
      [72, 101, 108, 108, 111, 32, 87, 111, 114, 108, 100] (by decide)⟩

/-- C7, amended.  `ReadValueError` is raised for a short type read, a short
length read, and a tag or type that decodes to an enumeration member
different from the expected one — but a short *tag* read instead raises a
`struct.error` from `unpack` (first conjunct; `read_tag` has no explicit
byte-count guard), and non-member codes raise a plain ValueError (see
C10's theorem).  The last conjunct is the success case. -/
theorem C7_header_error_characterization :
    (∀ (tagsMem : Nat → Bool) (expected : Nat) (s : List Nat), s.length < 3 →
      read_tag tagsMem expected s = .error .structError)
    ∧ (∀ (typesMem : Nat → Bool) (expected : Nat),
      read_type typesMem expected [] = .error (.readValueError "type"))
    ∧ (∀ s : List Nat, s.length < 4 →
      read_length s = .error (.readValueError "length"))
    ∧ (∀ (tagsMem : Nat → Bool) (expected b0 b1 b2 : Nat) (rest : List Nat),
      tagsMem (bytesToNat [0, b0, b1, b2]) = true →
      bytesToNat [0, b0, b1, b2] ≠ expected →
      read_tag tagsMem expected (b0 :: b1 :: b2 :: rest)
        = .error (.readValueError "tag"))
    ∧ (∀ (typesMem : Nat → Bool) (expected t : Nat) (rest : List Nat),
      typesMem t = true → t ≠ expected →
      read_type typesMem expected (t :: rest)
        = .error (.readValueError "type"))
    ∧ (∀ (tagsMem typesMem : Nat → Bool) ( tag typ len : Nat) (rest : List Nat),
      tag < 2 ^ 24 → tagsMem tag = true → typesMem typ = true → len < 2 ^ 32 →
      base_read tagsMem typesMem tag typ
        (natToBytes 3 tag ++ typ :: (natToBytes 4 len ++ rest))
        = .ok (len, rest)) :=
  ⟨read_tag_short, read_type_short, read_length_short, read_tag_mismatch,
    read_type_mismatch, base_read_ok⟩

/-- C7 witness: the short-tag-read conjunct at the empty stream and a tag
mismatch at a concrete stream. -/
theorem C7_header_error_characterization_witness :
    ([] : List Nat).length < 3
    ∧ read_tag sampleTags 0x420020 [] = .error .structError
    ∧ read_tag sampleTags 0x42007B [0x42, 0x00, 0x20]
      = .error (.readValueError "tag") :=
  ⟨by decide,
    C7_header_error_characterization.1 sampleTags 0x420020 [] (by decide),
    C7_header_error_characterization.2.2.2.1 sampleTags 0x42007B
      0x42 0x00 0x20 [] (by decide) (by decide)⟩

/-- C7 counterexample: header decoding on the empty stream fails with a
`struct.error` raised by `unpack`, not with the claimed `ReadValueError`
(`read_tag` reads fewer than 3 bytes and has no short-read guard). -/
theorem C7_short_tag_read_counterexample :
    base_read sampleTags sampleTypes 0x420020 2 [] = .error .structError := by
  rfl

/-- C8, amended.  `BigInteger.read` rejects with `InvalidPrimitiveLength`
exactly the lengths with `length % 8 ≠ 0`; a length of 0 — excluded by the
claim's "non-zero multiple of 8" — *passes* that check and then fails with
an `IndexError` subscripting the empty bit string (second conjunct); for a
positive multiple of 8 with enough data the decoder consumes exactly
`length` bytes and succeeds (third conjunct). -/
theorem C8_biginteger_length_check :
    (∀ (tagsMem typesMem : Nat → Bool) ( tag len : Nat) (rest : List Nat),
      tag < 2 ^ 24 → tagsMem tag = true → typesMem 4 = true → len < 2 ^ 32 →
      len % 8 ≠ 0 →
      BigInteger.read tagsMem typesMem tag
        (natToBytes 3 tag ++ 4 :: (natToBytes 4 len ++ rest))
        = .error .invalidPrimitiveLength)
    ∧ (∀ (tagsMem typesMem : Nat → Bool) ( tag : Nat) (rest : List Nat),
      tag < 2 ^ 24 → tagsMem tag = true → typesMem 4 = true →
      BigInteger.read tagsMem typesMem tag
        (natToBytes 3 tag ++ 4 :: (natToBytes 4 0 ++ rest))
        = .error .indexError)
    ∧ (∀ (tagsMem typesMem : Nat → Bool) ( tag : Nat) (data rest : List Nat),
      tag < 2 ^ 24 → tagsMem tag = true → typesMem 4 = true →
      data.length < 2 ^ 32 → data.length % 8 = 0 → data ≠ [] →
      ∃ v, BigInteger.read tagsMem typesMem tag
        (natToBytes 3 tag ++ 4 :: (natToBytes 4 data.length ++ (data ++ rest)))
        = .ok (v, rest)) :=
  ⟨biginteger_read_bad_length, biginteger_read_zero_length,
    biginteger_read_consumes⟩

/-- C8 witness: rejection of the odd length 9 and success on 8 data
bytes. -/
theorem C8_biginteger_length_check_witness :
    (9 : Nat) % 8 ≠ 0
    ∧ BigInteger.read sampleTags sampleTypes 0x420020
        (natToBytes 3 0x420020 ++ 4 :: (natToBytes 4 9 ++ []))
        = .error .invalidPrimitiveLength
    ∧ ∃ v, BigInteger.read sampleTags sampleTypes 0x420020
        (natToBytes 3 0x420020 ++ 4 :: (natToBytes 4 8
          ++ ([0, 0, 0, 0, 0, 0, 0, 5] ++ [])))
        = .ok (v, []) :=
  ⟨by decide,
    C8_biginteger_length_check.1 sampleTags sampleTypes 0x420020 9 []
      (by decide) (by decide) (by decide) (by decide) (by decide),
    C8_biginteger_length_check.2.2 sampleTags sampleTypes 0x420020
      [0, 0, 0, 0, 0, 0, 0, 5] [] (by decide) (by decide) (by decide)
      (by decide) (by decide) (by decide)⟩

/-- C8 counterexample: a decoded length field of 0 is not a non-zero
multiple of 8, yet decoding fails with an `IndexError` (from `binary[0]`
on the empty bit string), not with the claimed `InvalidPrimitiveLength`. -/
theorem C8_zero_length_counterexample :
    BigInteger.read sampleTags sampleTypes 0x420020
      [0x42, 0x00, 0x20, 4, 0, 0, 0, 0] = .error .indexError := by rfl

/-- C9: the claim (and the method's own docstring) say Boolean
construction raises TypeError for every non-boolean value, but
`Boolean.validate` guards the check with the value's *truthiness*: the
falsy non-boolean 0 passes validation and construction (first two
conjuncts); only truthy non-booleans such as 2 raise TypeError (third);
actual booleans validate (fourth). -/
theorem C9_boolean_falsy_validation_gap :
    Boolean.validate (.pyInt 0) = .ok ()
    ∧ Boolean.init (.pyInt 0) = .ok (.pyInt 0)
    ∧ Boolean.validate (.pyInt 2) = .error .typeError
    ∧ (∀ b : Bool, Boolean.validate (.pyBool b) = .ok ()) := by
  refine ⟨by rfl, by rfl, by rfl, ?_⟩
  intro b
  cases b <;> rfl

/-- C10: when the 3 tag bytes (respectively the type byte) decode to a
value outside the membership of the Tags (respectively Types) enumeration,
the enum conversion raises a plain ValueError — not a `ReadValueError` —
and it does so for *every* expected tag or type, i.e. before any
comparison with the expected value. -/
theorem C10_enum_conversion_plain_valueerror :
    (∀ (tagsMem : Nat → Bool) (expected b0 b1 b2 : Nat) (rest : List Nat),
      tagsMem (bytesToNat [0, b0, b1, b2]) = false →
      read_tag tagsMem expected (b0 :: b1 :: b2 :: rest)
        = .error (.valueError "not a Tags member"))
    ∧ (∀ (typesMem : Nat → Bool) (expected t : Nat) (rest : List Nat),
      typesMem t = false →
      read_type typesMem expected (t :: rest)
        = .error (.valueError "not a Types member")) :=
  ⟨read_tag_nonmember, read_type_nonmember⟩

/-- C10 witness: a non-member tag (`0x410000` is not in the sample Tags
enumeration) raises the plain ValueError even when the expected tag equals
the decoded value — the conversion happens before the comparison; same for
type byte 0x0B against the spec's Types table. -/
theorem C10_enum_conversion_plain_valueerror_witness :
    sampleTags (bytesToNat [0, 0x41, 0x00, 0x00]) = false
    ∧ read_tag sampleTags 0x410000 [0x41, 0x00, 0x00]
      = .error (.valueError "not a Tags member")
    ∧ read_type sampleTypes 11 [11] = .error (.valueError "not a Types member") :=
  ⟨by decide,
    C10_enum_conversion_plain_valueerror.1 sampleTags 0x410000
      0x41 0x00 0x00 [] (by decide),
    C10_enum_conversion_plain_valueerror.2 sampleTypes 11 11 [] (by decide)⟩

end PyKMIP
